import Mathlib

/-!
Shallow embedding of the extraction and storage core of the
Curacel Claims QA Service (Python), together with proofs about it.

The embedding follows the Python sources:
  src/services/extraction_service.py
  src/services/storage_service.py
  src/utils/helpers.py
  src/core/exceptions.py

Python strings are modelled as Lean `String` and `List Char`; the regular
expression searches of the `re` module are modelled by a small backtracking
engine over an explicit pattern AST, with the patterns of the source
transcribed node by node.  `decimal.Decimal` parsing and `,.2f` formatting
are modelled explicitly.  Timestamps are modelled as natural numbers handed
to the storage operations (`datetime.utcnow()` becomes a `now` argument).
-/

/-! ## Python character and string primitives -/

/-- The whitespace characters recognised by Python's `str.strip` and by
`\s` of the `re` module on `str` (Unicode whitespace). -/
def pyIsSpace (c : Char) : Bool :=
  c = ' ' || c = '\t' || c = '\n' || c = '\r' || c = '\x0b' || c = '\x0c' ||
  c = '\u001c' || c = '\u001d' || c = '\u001e' || c = '\u001f' ||
  c = '\u0085' || c = '\u00a0' || c = '\u1680' ||
  c = '\u2000' || c = '\u2001' || c = '\u2002' || c = '\u2003' ||
  c = '\u2004' || c = '\u2005' || c = '\u2006' || c = '\u2007' ||
  c = '\u2008' || c = '\u2009' || c = '\u200a' ||
  c = '\u2028' || c = '\u2029' || c = '\u202f' || c = '\u205f' || c = '\u3000'

/-- Python `str.strip()` on a character list. -/
def pyStrip (l : List Char) : List Char :=
  ((l.dropWhile pyIsSpace).reverse.dropWhile pyIsSpace).reverse

/-- Python `str.strip()` on a string. -/
def pyStripStr (s : String) : String := String.mk (pyStrip s.data)

theorem length_dropWhile_le {α : Type} (p : α → Bool) (l : List α) :
    (l.dropWhile p).length ≤ l.length := by
  induction l with
  | nil => simp [List.dropWhile]
  | cons a t ih =>
    by_cases h : p a
    · simp only [List.dropWhile, h, List.length_cons]
      omega
    · simp [List.dropWhile, h]

/-- `re.sub(r'\s+', ' ', _)`: every maximal run of whitespace characters
is replaced by a single space.  The boolean argument records whether the
previous character was part of a whitespace run (whose single replacement
space has already been emitted). -/
def collapseWsAux : Bool → List Char → List Char
  | _, [] => []
  | inRun, c :: rest =>
    if pyIsSpace c then
      if inRun then collapseWsAux true rest
      else ' ' :: collapseWsAux true rest
    else c :: collapseWsAux false rest

/-- `re.sub(r'\s+', ' ', _)`. -/
def collapseWs (l : List Char) : List Char := collapseWsAux false l

/-- ASCII lower-casing on code points, as used for case-insensitive
(`re.IGNORECASE`) matching. -/
def lowN (n : Nat) : Nat := if 65 ≤ n ∧ n ≤ 90 then n + 32 else n

/-- Case-insensitive character comparison (ASCII case folding). -/
def lowEq (x c : Char) : Bool := lowN x.toNat == lowN c.toNat

/-- Python `str.lower()` for one ASCII character. -/
def pyLowerChar (c : Char) : Char :=
  if 'A' ≤ c ∧ c ≤ 'Z' then Char.ofNat (c.toNat + 32) else c

/-- Python `str.lower()` (ASCII range, which covers all strings the
service manipulates). -/
def pyLower (l : List Char) : List Char := l.map pyLowerChar

/-- Python `str.upper()` for one ASCII character. -/
def pyUpperChar (c : Char) : Char :=
  if 'a' ≤ c ∧ c ≤ 'z' then Char.ofNat (c.toNat - 32) else c

/-- ASCII letter test (`[A-Za-z]`, and Python `str.isalpha` on the ASCII
fragment the service manipulates). -/
def isAsciiAlpha (c : Char) : Bool :=
  ('A' ≤ c && c ≤ 'Z') || ('a' ≤ c && c ≤ 'z')

/-- Python `str.title()`: the first letter of every run of letters is
upper-cased, every other letter lower-cased.  The boolean argument records
whether the previous character was a letter. -/
def pyTitleAux : Bool → List Char → List Char
  | _, [] => []
  | prevAlpha, c :: rest =>
    if isAsciiAlpha c then
      (if prevAlpha then pyLowerChar c else pyUpperChar c) :: pyTitleAux true rest
    else c :: pyTitleAux false rest

/-- Python `str.title()`. -/
def pyTitle (l : List Char) : List Char := pyTitleAux false l

/-- Python `str.isdigit()` (ASCII digits): nonempty and all digits. -/
def pyIsDigitStr (l : List Char) : Bool := !l.isEmpty && l.all Char.isDigit

/-- Python `int(...)` on an all-digit string. -/
def digitsToNat (l : List Char) : Nat :=
  l.foldl (fun acc c => acc * 10 + (c.toNat - 48)) 0

/-! ## The text normalizer (`_clean_ocr_text`)

Python source:
```
cleaned = re.sub(r'\s+', ' ', text.strip())
cleaned = cleaned.replace('|', 'I').replace('0', 'O')
```
-/

/-- `str.replace(a, b)` on character lists. -/
def pyReplaceChar (a b : Char) (l : List Char) : List Char :=
  l.map fun c => if c = a then b else c

def _clean_ocr_text (text : String) : String :=
  String.mk
    (pyReplaceChar '0' 'O'
      (pyReplaceChar '|' 'I' (collapseWs (pyStrip text.data))))

/-! ## A backtracking regular-expression engine

All searches in the service use `re.search`/`re.finditer` with
`re.IGNORECASE`.  The engine below implements Python's leftmost search with
ordered alternation, greedy/lazy quantifiers and numbered capturing groups,
by continuation-passing backtracking over character lists. -/

/-- Pattern AST. -/
inductive RE : Type
  | eps                               -- empty pattern
  | chr (c : Char)                    -- literal character, case-insensitive
  | cls (p : Char → Bool)             -- character class
  | seq (a b : RE)                    -- concatenation
  | alt (a b : RE)                    -- ordered alternation
  | starG (a : RE)                    -- greedy star
  | starL (a : RE)                    -- lazy star
  | optG (a : RE)                     -- greedy option
  | group (n : Nat) (a : RE)          -- capturing group number n
  | bnd                               -- word boundary
  | eol                               -- dollar anchor

/-- Captured groups: group number paired with the captured characters.
The most recent capture of a group is listed first. -/
abbrev Caps := List (Nat × List Char)

/-- Result of a search: the reversed prefix before the match end, the
remaining suffix after the match end, and the captures. -/
abbrev SearchRes := List Char × List Char × Caps

/-- Word characters for the word-boundary assertion. -/
def isWordChar (c : Char) : Bool := isAsciiAlpha c || c.isDigit || c = '_'

/-- Word boundary test between the reversed left context and the right
context. -/
def atBoundary (left right : List Char) : Bool :=
  (match left with | [] => false | c :: _ => isWordChar c) !=
  (match right with | [] => false | c :: _ => isWordChar c)

/-- Dollar anchor: end of input, or just before a final newline. -/
def atEol (right : List Char) : Bool :=
  match right with
  | [] => true
  | [c] => c == '\n'
  | _ => false

/-- One structural layer of the backtracking matcher.  `left` is the
reversed consumed prefix, `right` the remaining input, `caps` the captures
so far, and `k` the continuation tried at every way the pattern can match
here.  `recur` re-enters a star after an iteration that consumed at least
one character (all starred sub-patterns of the service's patterns consume
at least one character per iteration, which is also how Python avoids
empty-match loops); it is instantiated with the matcher at one fuel level
less, the fuel being initialised to more than the input length, so fuel
never runs out on a star that makes progress. -/
def mtchGo
    (recur : RE → List Char → List Char → Caps →
      (List Char → List Char → Caps → Option SearchRes) → Option SearchRes) :
    RE → List Char → List Char → Caps →
      (List Char → List Char → Caps → Option SearchRes) → Option SearchRes
  | .eps, left, right, caps, k => k left right caps
  | .chr c, left, right, caps, k =>
    match right with
    | [] => none
    | x :: rest => if lowEq x c then k (x :: left) rest caps else none
  | .cls p, left, right, caps, k =>
    match right with
    | [] => none
    | x :: rest => if p x then k (x :: left) rest caps else none
  | .seq a b, left, right, caps, k =>
    mtchGo recur a left right caps (fun l r c => mtchGo recur b l r c k)
  | .alt a b, left, right, caps, k =>
    match mtchGo recur a left right caps k with
    | some res => some res
    | none => mtchGo recur b left right caps k
  | .starG a, left, right, caps, k =>
    (match mtchGo recur a left right caps (fun l r c =>
        if r.length < right.length then recur (.starG a) l r c k
        else none) with
     | some res => some res
     | none => k left right caps)
  | .starL a, left, right, caps, k =>
    (match k left right caps with
     | some res => some res
     | none =>
       mtchGo recur a left right caps (fun l r c =>
         if r.length < right.length then recur (.starL a) l r c k
         else none))
  | .optG a, left, right, caps, k =>
    (match mtchGo recur a left right caps k with
     | some res => some res
     | none => k left right caps)
  | .group n a, left, right, caps, k =>
    mtchGo recur a left right caps (fun l r c =>
      k l r ((n, right.take (right.length - r.length)) :: c))
  | .bnd, left, right, caps, k =>
    if atBoundary left right then k left right caps else none
  | .eol, left, right, caps, k =>
    if atEol right then k left right caps else none

/-- The backtracking matcher, by fuel-indexed iteration of `mtchGo`. -/
def mtch : Nat → RE → List Char → List Char → Caps →
    (List Char → List Char → Caps → Option SearchRes) → Option SearchRes
  | 0, _, _, _, _, _ => none
  | fuel + 1, re, left, right, caps, k => mtchGo (mtch fuel) re left right caps k

/-- `re.search`: try a match at every start position, leftmost first. -/
def searchAux (re : RE) : List Char → List Char → Option SearchRes
  | left, [] => mtch 1 re left [] [] (fun l r c => some (l, r, c))
  | left, x :: rest =>
    match mtch ((x :: rest).length + 1) re left (x :: rest) []
        (fun l r c => some (l, r, c)) with
    | some res => some res
    | none => searchAux re (x :: left) rest

/-- `re.search(pattern, s, re.IGNORECASE)`. -/
def reSearch (re : RE) (s : String) : Option SearchRes := searchAux re [] s.data

/-- `match.group(n)` (all groups of the service's patterns participate in
every successful match). -/
def capGet (res : SearchRes) (n : Nat) : List Char := ((res.2.2).lookup n).getD []

/-- `re.finditer`: successive non-overlapping matches, each search resuming
at the end of the previous match (all patterns used with `finditer` consume
at least one character per match, so the fuel — initialised to more than
the input length — never runs out while matches still make progress). -/
def findAllAux : Nat → RE → List Char → List Char → List SearchRes
  | 0, _, _, _ => []
  | fuel + 1, re, left, right =>
    match searchAux re left right with
    | none => []
    | some res =>
      if res.2.1.length < right.length then
        res :: findAllAux fuel re res.1 res.2.1
      else [res]

/-- `re.finditer(pattern, s, re.IGNORECASE)`. -/
def reFindAll (re : RE) (s : String) : List SearchRes :=
  findAllAux (s.data.length + 1) re [] s.data

/-! ### Pattern combinators used for transcription -/

/-- Concatenation of a list of patterns. -/
def rseq (l : List RE) : RE := l.foldr .seq .eps

/-- A literal string (case-insensitive, like every pattern here). -/
def rstr (s : String) : RE := rseq (s.data.map .chr)

/-- A literal character with no cased counterpart (punctuation, currency
symbols); case-insensitive matching of such a character is exact matching. -/
def rsym (c : Char) : RE := .cls (fun x => x == c)

/-- The class `\d`. -/
def rdigit : RE := .cls Char.isDigit

/-- The class `\s`. -/
def rws : RE := .cls pyIsSpace

/-- The class `.` (any character but newline). -/
def rdot : RE := .cls (fun c => c != '\n')

/-- `+` (greedy). -/
def rplus (a : RE) : RE := .seq a (.starG a)

/-- Three-way ordered alternation. -/
def ralt3 (a b c : RE) : RE := .alt a (.alt b c)

/-- A whole-word keyword pattern `\bword\b`. -/
def wordRE (w : String) : RE := rseq [.bnd, rstr w, .bnd]

/-! ## Decimal digits and date normalization (`_normalize_date`) -/

/-- The decimal digit characters. -/
def digitChar : Nat → Char
  | 0 => '0' | 1 => '1' | 2 => '2' | 3 => '3' | 4 => '4'
  | 5 => '5' | 6 => '6' | 7 => '7' | 8 => '8' | _ => '9'

/-- Little-endian decimal digits of a positive number (the first argument
is fuel, at least the number itself). -/
def natDigitsRevF : Nat → Nat → List Char
  | 0, _ => []
  | f + 1, n => if n = 0 then [] else digitChar (n % 10) :: natDigitsRevF f (n / 10)

/-- Little-endian decimal digits of a positive number. -/
def natDigitsRev (n : Nat) : List Char := natDigitsRevF (n + 1) n

/-- Decimal digits of a natural number. -/
def natDigits (n : Nat) : List Char :=
  if n = 0 then ['0'] else (natDigitsRev n).reverse

/-- Zero-pad on the left to width `k`. -/
def padLeft (k : Nat) (ds : List Char) : List Char :=
  List.replicate (k - ds.length) '0' ++ ds

/-- Length of a month, as validated by `datetime`. -/
def daysInMonth (y m : Nat) : Nat :=
  if m = 2 then (if y % 4 = 0 ∧ (y % 100 ≠ 0 ∨ y % 400 = 0) then 29 else 28)
  else if m = 4 ∨ m = 6 ∨ m = 9 ∨ m = 11 then 30 else 31

/-- One `datetime.strptime` attempt for the fixed formats of
`_normalize_date`: separator `sep`, day-first or month-first, four-digit
(`%Y`, exactly four digits) or two-digit (`%y`, mapped to 1969–2068) year.
Each strptime format must consume the whole string, day and month are one or
two digits, and the resulting date must be a valid calendar date. -/
def tryFormat (s : List Char) (sep : Char) (dayFirst fourYear : Bool) :
    Option (Nat × Nat × Nat) :=
  match s.splitOn sep with
  | [p1, p2, p3] =>
    if p1.all Char.isDigit && !p1.isEmpty && p1.length ≤ 2 &&
       p2.all Char.isDigit && !p2.isEmpty && p2.length ≤ 2 &&
       p3.all Char.isDigit && p3.length = (if fourYear then 4 else 2) then
      let v1 := digitsToNat p1
      let v2 := digitsToNat p2
      let d := if dayFirst then v1 else v2
      let m := if dayFirst then v2 else v1
      let y := if fourYear then digitsToNat p3
               else (if digitsToNat p3 ≤ 68 then 2000 + digitsToNat p3
                     else 1900 + digitsToNat p3)
      if 1 ≤ m && m ≤ 12 && 1 ≤ d && d ≤ daysInMonth y m && 1 ≤ y then
        some (y, m, d)
      else none
    else none
  | _ => none

/-- `strftime('%Y-%m-%d')`. -/
def fmtYmd (y m d : Nat) : String :=
  String.mk (padLeft 4 (natDigits y) ++ '-' :: (padLeft 2 (natDigits m) ++ '-' :: padLeft 2 (natDigits d)))

/-- `_normalize_date`: try the fixed ordered format list
`%d/%m/%Y, %m/%d/%Y, %d-%m-%Y, %m-%d-%Y, %d/%m/%y, %m/%d/%y`; the first
format that parses wins; if none parses, the input is returned verbatim. -/
def _normalize_date (s : String) : String :=
  let fmts : List (Char × Bool × Bool) :=
    [('/', true, true), ('/', false, true), ('-', true, true),
     ('-', false, true), ('/', true, false), ('/', false, false)]
  match fmts.findSome? (fun f => tryFormat s.data f.1 f.2.1 f.2.2) with
  | some (y, m, d) => fmtYmd y m d
  | none => s

/-! ## Currency formatting (`format_currency`, helpers.py)

Python source:
```
if not amount:
    return "N0.00"            -- with the naira sign
try:
    value = Decimal(amount.replace(",", "").replace("N", "").replace("$", "").strip())
    return f"N{value:,.2f}"
except (InvalidOperation, ValueError):
    return "N0.00"
```
-/

/-- A parsed `decimal.Decimal` value: finite values are
`(-1)^sign * num * 10^exp`; quiet and signalling NaNs keep their
diagnostic payloads. -/
inductive PyDecimal : Type
  | fin (sign : Bool) (num : Nat) (exp : Int)
  | nan (sign : Bool) (payload : List Char)
  | snan (sign : Bool) (payload : List Char)
  | inf (sign : Bool)
deriving DecidableEq, Repr

/-- A run of digits possibly containing single underscores between digits
(PEP 515, accepted by the `Decimal` constructor); returns the digits and
the unconsumed rest. -/
def digRun : List Char → List Char → List Char × List Char
  | acc, [] => (acc.reverse, [])
  | acc, c :: rest =>
    if c.isDigit then digRun (c :: acc) rest
    else if c = '_' then
      match rest with
      | d :: rest' =>
        if d.isDigit then digRun (d :: acc) rest' else (acc.reverse, c :: rest)
      | [] => (acc.reverse, [c])
    else (acc.reverse, c :: rest)

/-- The finite-number branch of the `Decimal` string grammar:
`digits [. digits] [e skip sign digits]`, consuming the whole string. -/
def parseFinite (sign : Bool) (l : List Char) : Option PyDecimal :=
  let ipr := digRun [] l
  let fpr :=
    match ipr.2 with
    | '.' :: t => digRun [] t
    | _ => ([], ipr.2)
  if ipr.1.isEmpty && fpr.1.isEmpty then none
  else
    match fpr.2 with
    | [] => some (.fin sign (digitsToNat (ipr.1 ++ fpr.1)) (-(fpr.1.length : Int)))
    | e :: t =>
      if e = 'e' ∨ e = 'E' then
        let spl : Bool × List Char :=
          match t with
          | '+' :: t' => (false, t')
          | '-' :: t' => (true, t')
          | _ => (false, t)
        match digRun [] spl.2 with
        | (eds, []) =>
          if eds.isEmpty then none
          else
            let ev : Int := (digitsToNat eds : Int)
            some (.fin sign (digitsToNat (ipr.1 ++ fpr.1))
              ((if spl.1 then -ev else ev) - (fpr.1.length : Int)))
        | _ => none
      else none

/-- The `Decimal` constructor on a (pre-stripped) string: optional sign,
then (case-insensitively) `Infinity`/`Inf`, `NaN` with an optional digit
payload, or a finite numeric literal. -/
def parsePyDecimal (l : List Char) : Option PyDecimal :=
  let sign : Bool := l.head? = some '-'
  let rest : List Char :=
    if l.head? = some '-' || l.head? = some '+' then l.tail else l
  let low := pyLower rest
  if low = "infinity".data ∨ low = "inf".data then some (.inf sign)
  else if low.take 3 = "nan".data then
    let payload := low.drop 3
    if payload.isEmpty then some (.nan sign [])
    else
      match digRun [] payload with
      | (ds, []) => if ds.isEmpty then none else some (.nan sign ds)
      | _ => none
  else if low.take 4 = "snan".data then
    let payload := low.drop 4
    if payload.isEmpty then some (.snan sign [])
    else
      match digRun [] payload with
      | (ds, []) => if ds.isEmpty then none else some (.snan sign ds)
      | _ => none
  else parseFinite sign rest

/-- Division rounding half to even (the rounding used when formatting a
`Decimal` with `.2f` under the default context). -/
def halfEvenDiv (a b : Nat) : Nat :=
  let q := a / b
  let r := a % b
  if 2 * r < b then q
  else if 2 * r > b then q + 1
  else if q % 2 = 0 then q else q + 1

/-- The value scaled to hundredths (rounded half-even). -/
def centsOf (num : Nat) (exp : Int) : Nat :=
  let k := exp + 2
  if 0 ≤ k then num * 10 ^ k.toNat
  else halfEvenDiv num (10 ^ (-k).toNat)

/-- Comma insertion every three digits, working over the reversed digit
list; `k` counts the digits already placed in the current group. -/
def goR3 : Nat → List Char → List Char
  | _, [] => []
  | k, c :: rest => if k = 3 then ',' :: c :: goR3 1 rest else c :: goR3 (k + 1) rest

/-- Thousands grouping of a digit string. -/
def group3 (ds : List Char) : List Char := (goR3 0 ds.reverse).reverse

/-- Exactly two fractional digits. -/
def twoFrac (n : Nat) : List Char := [digitChar (n / 10 % 10), digitChar (n % 10)]

/-- `format(value, ',.2f')` for a parsed `Decimal`. -/
def fmt2 : PyDecimal → List Char
  | .nan sign payload => (if sign then ['-'] else []) ++ 'N' :: 'a' :: 'N' :: payload
  | .snan sign payload => (if sign then ['-'] else []) ++ 's' :: 'N' :: 'a' :: 'N' :: payload
  | .inf sign => (if sign then ['-'] else []) ++ "Infinity".data
  | .fin sign num exp =>
    let cents := centsOf num exp
    (if sign then ['-'] else []) ++ group3 (natDigits (cents / 100)) ++ '.' :: twoFrac (cents % 100)

/-- `amount.replace(",", "").replace("₦", "").replace("$", "")`. -/
def stripCurrencySyms (l : List Char) : List Char :=
  l.filter fun c => c ≠ ',' && c ≠ '₦' && c ≠ '$'

/-- `format_currency` (helpers.py). -/
def format_currency (amount : String) : String :=
  if amount.data.isEmpty then "₦0.00"
  else
    match parsePyDecimal (pyStrip (stripCurrencySyms amount.data)) with
    | some v => String.mk ('₦' :: fmt2 v)
    | none => "₦0.00"

/-! ## The field extractors (extraction_service.py) -/

/-- `re.split(delims-class + trailing whitespace, _)` for the delimiter
classes used by the diagnosis and procedure extractors. -/
def pySplitDelims (delims : List Char) : Bool → List Char → List Char → List (List Char)
  | _, acc, [] => [acc.reverse]
  | skipWs, acc, c :: rest =>
    if skipWs && pyIsSpace c then pySplitDelims delims true acc rest
    else if c ∈ delims then acc.reverse :: pySplitDelims delims true [] rest
    else pySplitDelims delims false (c :: acc) rest

/-- The per-match post-processing shared by diagnoses and procedures:
split the captured text on delimiters, keep the non-blank pieces,
strip and title-case each. -/
def splitTrimTitle (delims : List Char) (g : List Char) : List String :=
  (pySplitDelims delims false [] g).filterMap fun d =>
    let ds := pyStrip d
    if ds.isEmpty then none else some (String.mk (pyTitle ds))

/-- The character class of the captured field bodies of the patient-name
patterns. -/
def nameCls : RE := .cls fun c => isAsciiAlpha c || pyIsSpace c

/-- The character class of the captured field bodies of the diagnosis and
procedure patterns. -/
def fieldCls : RE := .cls fun c => isAsciiAlpha c || pyIsSpace c || c == ','

/-! ### Patient information -/

-- (?:patient|name|patient name)[:]\s*([A-Za-z\s]+)(?:\n|age|$)
def namePat1 : RE :=
  rseq [ralt3 (rstr "patient") (rstr "name") (rstr "patient name"),
    rsym ':', .starG rws, .group 1 (rplus nameCls),
    ralt3 (rsym '\n') (rstr "age") .eol]

-- name[:]\s*([A-Za-z\s]+)
def namePat2 : RE := rseq [rstr "name", rsym ':', .starG rws, .group 1 (rplus nameCls)]

-- patient[:]\s*([A-Za-z\s]+)
def namePat3 : RE := rseq [rstr "patient", rsym ':', .starG rws, .group 1 (rplus nameCls)]

def patient_name_patterns : List RE := [namePat1, namePat2, namePat3]

-- age[:]\s*(\d+)
def agePat1 : RE := rseq [rstr "age", rsym ':', .starG rws, .group 1 (rplus rdigit)]

-- (\d+)\s*years?\s*old
def agePat2 : RE :=
  rseq [.group 1 (rplus rdigit), .starG rws, rstr "year", .optG (.chr 's'),
    .starG rws, rstr "old"]

-- age\s*(\d+)
def agePat3 : RE := rseq [rstr "age", .starG rws, .group 1 (rplus rdigit)]

def patient_age_patterns : List RE := [agePat1, agePat2, agePat3]

/-- `safe_extract_text_field` (helpers.py): first pattern with a match
wins; its group 1 is returned stripped; otherwise the empty string. -/
def safe_extract_text_field (text : String) (pats : List RE) : String :=
  match pats with
  | [] => ""
  | p :: rest =>
    match reSearch p text with
    | some m => String.mk (pyStrip (capGet m 1))
    | none => safe_extract_text_field text rest

/-- The patient field group. -/
structure Patient where
  name : Option String
  age : Option Nat
deriving DecidableEq, Repr

/-- `_extract_patient_info`: extract name and age, keep the truthy ones,
and fall back to the fixed sample identity when the combined dictionary is
empty. -/
def _extract_patient_info (text : String) : Patient :=
  let name := safe_extract_text_field text patient_name_patterns
  let age_str := safe_extract_text_field text patient_age_patterns
  let age : Option Nat :=
    if pyIsDigitStr age_str.data then some (digitsToNat age_str.data) else none
  let p : Patient :=
    { name := if !name.isEmpty then some (String.mk (pyTitle name.data)) else none,
      age := match age with
             | some a => if a ≠ 0 then some a else none
             | none => none }
  if p.name.isNone && p.age.isNone then { name := some "Jane Doe", age := some 34 }
  else p

/-! ### Diagnoses -/

-- diagnosis[:]\s*([A-Za-z\s,]+)  /  condition[:]\s*(…)  /  diagnosed with[:]\s*(…)
def diagPat1 : RE := rseq [rstr "diagnosis", rsym ':', .starG rws, .group 1 (rplus fieldCls)]
def diagPat2 : RE := rseq [rstr "condition", rsym ':', .starG rws, .group 1 (rplus fieldCls)]
def diagPat3 : RE := rseq [rstr "diagnosed with", rsym ':', .starG rws, .group 1 (rplus fieldCls)]

def diagnosis_patterns : List RE := [diagPat1, diagPat2, diagPat3]

def common_conditions : List String :=
  ["malaria", "fever", "headache", "typhoid", "flu", "cold", "infection"]

/-- `_extract_diagnoses`: collect all three labelled patterns (split on
comma/semicolon), append title-cased keyword hits, drop blanks, deduplicate
(Python builds a set; the iteration order of a Python set is unspecified,
modelled here as first-occurrence order), default to `["Malaria"]`. -/
def _extract_diagnoses (text : String) : List String :=
  let fromPats := diagnosis_patterns.foldl (fun acc p =>
    match reSearch p text with
    | some m => acc ++ splitTrimTitle [',', ';'] (pyStrip (capGet m 1))
    | none => acc) []
  let withKw := common_conditions.foldl (fun acc w =>
    if (reSearch (wordRE w) text).isSome then acc ++ [String.mk (pyTitle w.data)]
    else acc) fromPats
  let dedup := (withKw.filter fun d => !d.isEmpty).eraseDups
  if dedup.isEmpty then ["Malaria"] else dedup

/-! ### Medications -/

/-- A medication entry. -/
structure Medication where
  name : String
  dosage : String
  quantity : String
deriving DecidableEq, Repr

-- ([A-Za-z]+(?:/[A-Za-z]+)?)\s*(\d+\s*mg)\s*.*?(\d+\s*tablets?)
def ralphaPlus : RE := rplus (.cls isAsciiAlpha)
def medName : RE := .seq ralphaPlus (.optG (.seq (rsym '/') ralphaPlus))
def medPat1 : RE :=
  rseq [.group 1 medName, .starG rws,
    .group 2 (rseq [rplus rdigit, .starG rws, rstr "mg"]), .starG rws, .starL rdot,
    .group 3 (rseq [rplus rdigit, .starG rws, rstr "tablet", .optG (.chr 's')])]

-- ([A-Za-z]+)\s*[-:]\s*(\d+\s*mg)\s*[-:]\s*(\d+\s*tablets?)
def dashColon : RE := .cls fun c => c == '-' || c == ':'
def medPat2 : RE :=
  rseq [.group 1 ralphaPlus, .starG rws, dashColon, .starG rws,
    .group 2 (rseq [rplus rdigit, .starG rws, rstr "mg"]), .starG rws, dashColon,
    .starG rws,
    .group 3 (rseq [rplus rdigit, .starG rws, rstr "tablet", .optG (.chr 's')])]

-- ([A-Za-z]+(?:/[A-Za-z]+)?)\s*(\d+mg)\s*.*?quantity[:]\s*(\d+)
def medPat3 : RE :=
  rseq [.group 1 medName, .starG rws, .group 2 (.seq (rplus rdigit) (rstr "mg")),
    .starG rws, .starL rdot, rstr "quantity", rsym ':', .starG rws,
    .group 3 (rplus rdigit)]

def medication_patterns : List RE := [medPat1, medPat2, medPat3]

def common_meds : List String :=
  ["paracetamol", "ibuprofen", "artemether", "lumefantrine", "aspirin"]

/-- `_extract_medications`: all `finditer` matches of the three shapes,
then keyword entries with the fixed dosage/quantity for any known
medication name not already present (case-insensitive), defaulting to the
fixed Paracetamol entry. -/
def _extract_medications (text : String) : List Medication :=
  let fromPats := medication_patterns.foldl (fun acc p =>
    acc ++ (reFindAll p text).map fun m =>
      { name := String.mk (pyTitle (pyStrip (capGet m 1))),
        dosage := String.mk (pyLower (pyStrip (capGet m 2))),
        quantity := String.mk (pyLower (pyStrip (capGet m 3))) }) []
  let withKw := common_meds.foldl (fun acc w =>
    if (reSearch (wordRE w) text).isSome &&
        !(acc.any fun m => String.mk (pyLower m.name.data) == w) then
      acc ++ [{ name := String.mk (pyTitle w.data), dosage := "500mg",
                quantity := "10 tablets" }]
    else acc) fromPats
  if withKw.isEmpty then
    [{ name := "Paracetamol", dosage := "500mg", quantity := "10 tablets" }]
  else withKw

/-! ### Procedures -/

-- procedures?[:]\s*([A-Za-z\s,]+)  /  tests?[:]\s*(…)  /  treatment[:]\s*(…)
def procPat1 : RE :=
  rseq [rstr "procedure", .optG (.chr 's'), rsym ':', .starG rws, .group 1 (rplus fieldCls)]
def procPat2 : RE :=
  rseq [rstr "test", .optG (.chr 's'), rsym ':', .starG rws, .group 1 (rplus fieldCls)]
def procPat3 : RE :=
  rseq [rstr "treatment", rsym ':', .starG rws, .group 1 (rplus fieldCls)]

def procedure_patterns : List RE := [procPat1, procPat2, procPat3]

def common_procedures : List String :=
  ["malaria test", "blood test", "rapid test", "x-ray", "consultation"]

/-- `_extract_procedures`: like diagnoses, with hyphen as an extra split
delimiter and its own keyword list; defaults to `["Malaria Test"]`. -/
def _extract_procedures (text : String) : List String :=
  let fromPats := procedure_patterns.foldl (fun acc p =>
    match reSearch p text with
    | some m => acc ++ splitTrimTitle [',', ';', '-'] (pyStrip (capGet m 1))
    | none => acc) []
  let withKw := common_procedures.foldl (fun acc w =>
    if (reSearch (wordRE w) text).isSome then acc ++ [String.mk (pyTitle w.data)]
    else acc) fromPats
  let dedup := (withKw.filter fun d => !d.isEmpty).eraseDups
  if dedup.isEmpty then ["Malaria Test"] else dedup

/-! ### Admission information -/

/-- The admission field group. -/
structure Admission where
  was_admitted : Bool
  admission_date : Option String
  discharge_date : Option String
deriving DecidableEq, Repr

def admission_indicators : List String := ["admitted", "admission", "inpatient", "ward"]

/-- Whole-word scan for the admission indicators. -/
def wasAdmittedFlag (text : String) : Bool :=
  admission_indicators.any fun w => (reSearch (wordRE w) text).isSome

-- \d{1,2}[\/\-]\d{1,2}[\/\-]\d{2,4}
def d12 : RE := .seq rdigit (.optG rdigit)
def dsep : RE := .cls fun c => c == '/' || c == '-'
def y24 : RE := rseq [rdigit, rdigit, .optG (.seq rdigit (.optG rdigit))]
def dateG : RE := .group 1 (rseq [d12, dsep, d12, dsep, y24])

def datePat1 : RE := rseq [rstr "admission date", rsym ':', .starG rws, dateG]
def datePat2 : RE := rseq [rstr "admitted", rsym ':', .starG rws, dateG]
def datePat3 : RE := rseq [rstr "discharge date", rsym ':', .starG rws, dateG]
def datePat4 : RE := rseq [rstr "discharged", rsym ':', .starG rws, dateG]

/-- The four date patterns, flagged `true` when the Python loop files the
match under the admission date (`'admission' in pattern or 'admitted' in
pattern`) and `false` when under the discharge date. -/
def date_patterns : List (RE × Bool) :=
  [(datePat1, true), (datePat2, true), (datePat3, false), (datePat4, false)]

/-- The date fields as left by the pattern loop (admission, discharge);
later patterns overwrite earlier ones of the same kind. -/
def rawDates (text : String) : Option String × Option String :=
  date_patterns.foldl (fun acc pb =>
    match reSearch pb.1 text with
    | some m =>
      let d := _normalize_date (String.mk (capGet m 1))
      if pb.2 then (some d, acc.2) else (acc.1, some d)
    | none => acc) (none, none)

/-- Python's falsy test on an optional date string. -/
def optStrFalsy : Option String → Bool
  | none => true
  | some s => s.isEmpty

/-- `_extract_admission_info`. -/
def _extract_admission_info (text : String) : Admission :=
  let w := wasAdmittedFlag text
  let ad := rawDates text
  if w && optStrFalsy ad.1 then
    { was_admitted := true, admission_date := some "2023-06-10",
      discharge_date := some "2023-06-12" }
  else
    { was_admitted := w, admission_date := ad.1, discharge_date := ad.2 }

/-! ### Total amount -/

-- the shared capture (\d+(?:,\d{3})*(?:\.\d{2})?)
def amtBody : RE :=
  rseq [rplus rdigit, .starG (rseq [rsym ',', rdigit, rdigit, rdigit]),
    .optG (rseq [rsym '.', rdigit, rdigit])]
def amtG : RE := .group 1 amtBody
def curSym : RE := .cls fun c => c == '₦' || c == '$'

-- total amount?[:]\s*[₦\$]?(…) / total[:]… / amount[:]… / bill[:]… / [₦\$]\s*(…)
def amtPat1 : RE :=
  rseq [rstr "total amoun", .optG (.chr 't'), rsym ':', .starG rws, .optG curSym, amtG]
def amtPat2 : RE := rseq [rstr "total", rsym ':', .starG rws, .optG curSym, amtG]
def amtPat3 : RE := rseq [rstr "amount", rsym ':', .starG rws, .optG curSym, amtG]
def amtPat4 : RE := rseq [rstr "bill", rsym ':', .starG rws, .optG curSym, amtG]
def amtPat5 : RE := rseq [curSym, .starG rws, amtG]

def amount_patterns : List RE := [amtPat1, amtPat2, amtPat3, amtPat4, amtPat5]

/-- The first amount pattern that matches, its group 1. -/
def firstAmountMatch (text : String) : Option String :=
  amount_patterns.findSome? fun p => (reSearch p text).map fun m => String.mk (capGet m 1)

/-- `_extract_total_amount`: first match wins, thousands separators are
stripped before formatting; fixed default when nothing matches. -/
def _extract_total_amount (text : String) : String :=
  match firstAmountMatch text with
  | some amt => format_currency (String.mk (amt.data.filter fun c => c ≠ ','))
  | none => "₦15,000"

/-! ## The claim assembler (`extract_claim_data`) and error taxonomy -/

/-- `ExtractionError` (exceptions.py), carrying its message. -/
inductive ExtractionErr : Type
  | extractionError (msg : String)
deriving DecidableEq, Repr

/-- The assembled claim record. -/
structure ClaimRecord where
  patient : Patient
  diagnoses : List String
  medications : List Medication
  procedures : List String
  admission : Admission
  total_amount : String
deriving DecidableEq, Repr

/-- `extract_claim_data` (extraction_service.py): reject empty or
whitespace-only input before normalization (the inner
`ExtractionError("Empty OCR text provided")` is re-wrapped by the
catch-all into the single extraction-error kind, preserving the message);
otherwise clean the text and run the six field extractors. -/
def extract_claim_data (ocr_text : String) : Except ExtractionErr ClaimRecord :=
  if ocr_text.data.isEmpty || (pyStrip ocr_text.data).isEmpty then
    .error (.extractionError "Failed to extract claim data: Empty OCR text provided")
  else
    let cleaned := _clean_ocr_text ocr_text
    .ok { patient := _extract_patient_info cleaned,
          diagnoses := _extract_diagnoses cleaned,
          medications := _extract_medications cleaned,
          procedures := _extract_procedures cleaned,
          admission := _extract_admission_info cleaned,
          total_amount := _extract_total_amount cleaned }

/-! ## The in-memory document store (storage_service.py)

`datetime.utcnow()` is modelled by an explicit `now` argument; the store
is an association list keyed by document id (later bindings shadow
earlier ones, like dictionary assignment). -/

/-- The `_metadata` object attached on store. -/
structure DocMeta where
  document_id : String
  created_at : Nat
  last_accessed : Nat
  access_count : Nat
deriving DecidableEq, Repr

/-- A stored document: the claim record plus its metadata. -/
structure StoredDoc where
  claim : ClaimRecord
  meta : DocMeta
deriving DecidableEq, Repr

/-- `DocumentNotFoundError` (exceptions.py), carrying its message. -/
inductive StorageErr : Type
  | documentNotFound (msg : String)
deriving DecidableEq, Repr

abbrev Store := List (String × StoredDoc)

/-- `store_claim`: enrich the claim with metadata (`access_count = 0`,
both timestamps now) and insert it under the document id.  The Python
function's return value is `None` — it returns nothing to its caller; only
the new store state is produced. -/
def store_claim (now : Nat) (document_id : String) (claim_data : ClaimRecord)
    (st : Store) : Store :=
  (document_id,
    { claim := claim_data,
      meta := { document_id := document_id, created_at := now,
                last_accessed := now, access_count := 0 } }) :: st

/-- `get_claim`: not-found error when the id is absent; otherwise update
`last_accessed`, increment `access_count`, and return the document together
with the updated store. -/
def get_claim (now : Nat) (document_id : String) (st : Store) :
    Except StorageErr (StoredDoc × Store) :=
  match st.lookup document_id with
  | none =>
    .error (.documentNotFound
      ("Document with ID '" ++ document_id ++ "' not found"))
  | some doc =>
    let m := doc.meta
    let d : StoredDoc :=
      { claim := doc.claim,
        meta := { document_id := m.document_id, created_at := m.created_at,
                  last_accessed := now, access_count := m.access_count + 1 } }
    .ok (d, st.map fun p => if p.1 = document_id then (document_id, d) else p)

/-! ## Properties of the text normalizer -/

/-- No two adjacent whitespace characters. -/
def noAdjWs : List Char → Bool
  | a :: b :: t => !(pyIsSpace a && pyIsSpace b) && noAdjWs (b :: t)
  | _ => true

/-- The combined character substitution of `_clean_ocr_text`
(first the pipe replacement, then the zero replacement). -/
def fixChar (c : Char) : Char :=
  if (if c = '|' then 'I' else c) = '0' then 'O' else (if c = '|' then 'I' else c)

theorem pyReplaceChar_comp (l : List Char) :
    pyReplaceChar '0' 'O' (pyReplaceChar '|' 'I' l) = l.map fixChar := by
  simp only [pyReplaceChar, List.map_map]
  rfl

theorem fixChar_ws (c : Char) : pyIsSpace (fixChar c) = pyIsSpace c := by
  by_cases h : c = '|'
  · subst h; decide
  · by_cases h0 : c = '0'
    · subst h0; decide
    · simp [fixChar, h, h0]

theorem fixChar_ne_pipe (c : Char) : fixChar c ≠ '|' := by
  by_cases h : c = '|'
  · subst h; decide
  · by_cases h0 : c = '0'
    · subst h0; decide
    · simp [fixChar, h, h0]

theorem fixChar_ne_zero (c : Char) : fixChar c ≠ '0' := by
  by_cases h : c = '|'
  · subst h; decide
  · by_cases h0 : c = '0'
    · subst h0; decide
    · simp [fixChar, h, h0]

theorem fixChar_fixed (c : Char) (hp : c ≠ '|') (hz : c ≠ '0') : fixChar c = c := by
  simp [fixChar, hp, hz]

theorem fixChar_space : fixChar ' ' = ' ' := by decide

theorem collapseWsAux_ws_eq_space (l : List Char) :
    ∀ b c, c ∈ collapseWsAux b l → pyIsSpace c = true → c = ' ' := by
  induction l with
  | nil => intro b c hc; simp [collapseWsAux] at hc
  | cons x rest ih =>
    intro b c hc hws
    by_cases hx : pyIsSpace x
    · cases b with
      | true =>
        simp only [collapseWsAux, hx, if_pos, if_true] at hc
        exact ih true c hc hws
      | false =>
        simp only [collapseWsAux, hx, if_pos, if_false, Bool.false_eq_true,
          List.mem_cons] at hc
        rcases hc with h | h
        · exact h
        · exact ih true c h hws
    · simp only [collapseWsAux, hx, Bool.false_eq_true, if_false, List.mem_cons] at hc
      rcases hc with h | h
      · subst h; rw [hws] at hx; exact absurd rfl hx
      · exact ih false c h hws

theorem collapseWsAux_cons_not_ws (b : Bool) (x : Char) (rest : List Char)
    (hx : pyIsSpace x = false) :
    collapseWsAux b (x :: rest) = x :: collapseWsAux false rest := by
  cases b <;> simp [collapseWsAux, hx]

theorem collapseWsAux_true_eq_false (l : List Char)
    (h : ∀ c, l.head? = some c → pyIsSpace c = false) :
    collapseWsAux true l = collapseWsAux false l := by
  cases l with
  | nil => rfl
  | cons x rest =>
    have hx := h x rfl
    rw [collapseWsAux_cons_not_ws true x rest hx,
      collapseWsAux_cons_not_ws false x rest hx]

theorem collapseWsAux_eq_nil (l : List Char) :
    ∀ b, collapseWsAux b l = [] → ∀ c ∈ l, pyIsSpace c = true := by
  induction l with
  | nil => intro b _ c hc; simp at hc
  | cons x rest ih =>
    intro b hb c hc
    by_cases hx : pyIsSpace x
    · cases b with
      | true =>
        simp only [collapseWsAux, hx, if_true] at hb
        rcases List.mem_cons.mp hc with h | h
        · subst h; exact hx
        · exact ih true hb c h
      | false => simp [collapseWsAux, hx] at hb
    · rw [collapseWsAux_cons_not_ws b x rest (by simpa using hx)] at hb
      exact absurd hb (List.cons_ne_nil _ _)

theorem collapseWsAux_head_not_ws (l : List Char)
    (h : ∀ c, l.head? = some c → pyIsSpace c = false) :
    ∀ c, (collapseWsAux false l).head? = some c → pyIsSpace c = false := by
  cases l with
  | nil => intro c hc; simp [collapseWsAux] at hc
  | cons x rest =>
    have hx := h x rfl
    rw [collapseWsAux_cons_not_ws false x rest hx]
    intro c hc
    simp only [List.head?_cons, Option.some.injEq] at hc
    subst hc; exact hx

theorem noAdjWs_cons (a : Char) (l : List Char) :
    noAdjWs (a :: l) =
      ((match l.head? with
        | some b => !(pyIsSpace a && pyIsSpace b)
        | none => true) && noAdjWs l) := by
  cases l with
  | nil => simp [noAdjWs]
  | cons b t => simp [noAdjWs]

theorem collapseWsAux_skip (x : Char) (rest : List Char) (hx : pyIsSpace x = true) :
    collapseWsAux true (x :: rest) = collapseWsAux true rest := by
  simp [collapseWsAux, hx]

theorem collapseWsAux_true_head (l : List Char) :
    ∀ c, (collapseWsAux true l).head? = some c → pyIsSpace c = false := by
  induction l with
  | nil => intro c hc; simp [collapseWsAux] at hc
  | cons x rest ih =>
    intro c hc
    by_cases hx : pyIsSpace x
    · rw [collapseWsAux_skip x rest hx] at hc
      exact ih c hc
    · rw [collapseWsAux_cons_not_ws true x rest (by simpa using hx)] at hc
      simp only [List.head?_cons, Option.some.injEq] at hc
      subst hc; simpa using hx

theorem collapseWsAux_noAdj (l : List Char) : ∀ b, noAdjWs (collapseWsAux b l) = true := by
  induction l with
  | nil => intro b; simp [collapseWsAux, noAdjWs]
  | cons x rest ih =>
    intro b
    by_cases hx : pyIsSpace x
    · cases b with
      | true => rw [collapseWsAux_skip x rest hx]; exact ih true
      | false =>
        have hstep : collapseWsAux false (x :: rest) = ' ' :: collapseWsAux true rest := by
          simp [collapseWsAux, hx]
        rw [hstep, noAdjWs_cons, Bool.and_eq_true]
        refine ⟨?_, ih true⟩
        cases hh : (collapseWsAux true rest).head? with
        | none => simp
        | some c =>
          have hc := collapseWsAux_true_head rest c hh
          simp [hc]
    · rw [collapseWsAux_cons_not_ws b x rest (by simpa using hx)]
      rw [noAdjWs_cons, Bool.and_eq_true]
      refine ⟨?_, ih false⟩
      cases hh : (collapseWsAux false rest).head? with
      | none => simp
      | some c => simp [show pyIsSpace x = false by simpa using hx]

theorem collapseWsAux_ne_nil (l : List Char) (b : Bool) (e : Char) (he : e ∈ l)
    (hws : pyIsSpace e = false) : collapseWsAux b l ≠ [] := by
  intro hnil
  have := collapseWsAux_eq_nil l b hnil e he
  rw [this] at hws
  exact absurd hws (by simp)

theorem collapseWsAux_getLast (l : List Char) :
    ∀ b, (∀ d, l.getLast? = some d → pyIsSpace d = false) →
      ∀ c, (collapseWsAux b l).getLast? = some c → pyIsSpace c = false := by
  induction l with
  | nil => intro b _ c hc; simp [collapseWsAux] at hc
  | cons x rest ih =>
    intro b hl c hc
    cases hrest : rest with
    | nil =>
      subst hrest
      have hx : pyIsSpace x = false := hl x rfl
      rw [collapseWsAux_cons_not_ws b x [] hx] at hc
      simp only [collapseWsAux, List.getLast?_singleton, Option.some.injEq] at hc
      subst hc; exact hx
    | cons y t =>
      subst hrest
      have hl' : ∀ d, (y :: t).getLast? = some d → pyIsSpace d = false := by
        intro d hd
        exact hl d (by rw [List.getLast?_cons_cons]; exact hd)
      obtain ⟨e, he⟩ : ∃ e, (y :: t).getLast? = some e := by
        cases hgl : (y :: t).getLast? with
        | none =>
          exact absurd hgl (by simp [List.getLast?_eq_none_iff])
        | some e => exact ⟨e, rfl⟩
      have hme : pyIsSpace e = false := hl' e he
      have hmem : e ∈ (y :: t) := List.mem_of_mem_getLast? (Option.mem_def.mpr he)
      by_cases hx : pyIsSpace x
      · cases b with
        | true =>
          rw [collapseWsAux_skip x (y :: t) hx] at hc
          exact ih true hl' c hc
        | false =>
          have hstep : collapseWsAux false (x :: y :: t) = ' ' :: collapseWsAux true (y :: t) := by
            simp [collapseWsAux, hx]
          rw [hstep] at hc
          cases hm : collapseWsAux true (y :: t) with
          | nil => exact absurd hm (collapseWsAux_ne_nil (y :: t) true e hmem hme)
          | cons z zs =>
            rw [hm, List.getLast?_cons_cons] at hc
            exact ih true hl' c (by rw [hm]; exact hc)
      · rw [collapseWsAux_cons_not_ws b x (y :: t) (by simpa using hx)] at hc
        cases hm : collapseWsAux false (y :: t) with
        | nil => exact absurd hm (collapseWsAux_ne_nil (y :: t) false e hmem hme)
        | cons z zs =>
          rw [hm, List.getLast?_cons_cons] at hc
          exact ih false hl' c (by rw [hm]; exact hc)

theorem collapseWsAux_eq_self_aux (l : List Char) :
    ∀ b, (∀ c ∈ l, pyIsSpace c = true → c = ' ') → noAdjWs l = true →
      (b = true → ∀ c, l.head? = some c → pyIsSpace c = false) →
      collapseWsAux b l = l := by
  induction l with
  | nil => intro b _ _ _; cases b <;> rfl
  | cons x rest ih =>
    intro b hsp hadj hb
    have hadj' : noAdjWs rest = true := by
      rw [noAdjWs_cons, Bool.and_eq_true] at hadj
      exact hadj.2
    have hsp' : ∀ c ∈ rest, pyIsSpace c = true → c = ' ' :=
      fun c hc => hsp c (List.mem_cons_of_mem x hc)
    by_cases hx : pyIsSpace x
    · cases b with
      | true => exact absurd hx (by simp [hb rfl x rfl])
      | false =>
        have hxsp : x = ' ' := hsp x (List.mem_cons_self x rest) hx
        have hstep : collapseWsAux false (x :: rest) = ' ' :: collapseWsAux true rest := by
          simp [collapseWsAux, hx]
        rw [hstep, hxsp]
        congr 1
        refine ih true hsp' hadj' (fun _ c hc => ?_)
        rw [noAdjWs_cons, Bool.and_eq_true] at hadj
        have h1 := hadj.1
        rw [hc] at h1
        simp only [hx, Bool.true_and, Bool.not_eq_true'] at h1
        exact h1
    · rw [collapseWsAux_cons_not_ws b x rest (by simpa using hx)]
      rw [ih false hsp' hadj' (by intro h; cases h)]

theorem collapseWsAux_eq_self (l : List Char)
    (hsp : ∀ c ∈ l, pyIsSpace c = true → c = ' ')
    (hadj : noAdjWs l = true) : collapseWsAux false l = l :=
  collapseWsAux_eq_self_aux l false hsp hadj (by intro h; cases h)

theorem dropWhile_head_not {α : Type} (p : α → Bool) (l : List α) :
    ∀ c, (l.dropWhile p).head? = some c → p c = false := by
  induction l with
  | nil => intro c hc; simp [List.dropWhile] at hc
  | cons x rest ih =>
    intro c hc
    by_cases hx : p x
    · rw [List.dropWhile_cons_of_pos hx] at hc
      exact ih c hc
    · rw [List.dropWhile_cons_of_neg hx] at hc
      simp only [List.head?_cons, Option.some.injEq] at hc
      subst hc
      simpa using hx

theorem dropWhile_getLast {α : Type} (p : α → Bool) (l : List α) :
    l.dropWhile p ≠ [] → (l.dropWhile p).getLast? = l.getLast? := by
  induction l with
  | nil => intro h; simp [List.dropWhile] at h
  | cons x rest ih =>
    intro h
    by_cases hx : p x
    · rw [List.dropWhile_cons_of_pos hx] at h ⊢
      have hrest : rest ≠ [] := by
        intro hr; rw [hr] at h; simp [List.dropWhile] at h
      rw [ih h]
      cases hr : rest with
      | nil => exact absurd hr hrest
      | cons y t => rw [List.getLast?_cons_cons]
    · rw [List.dropWhile_cons_of_neg hx]

theorem dropWhile_eq_self {α : Type} (p : α → Bool) (l : List α)
    (h : ∀ c, l.head? = some c → p c = false) : l.dropWhile p = l := by
  cases l with
  | nil => rfl
  | cons x rest => exact List.dropWhile_cons_of_neg (by simp [h x rfl])

theorem pyStrip_head_not_ws (l : List Char) :
    ∀ c, (pyStrip l).head? = some c → pyIsSpace c = false := by
  intro c hc
  unfold pyStrip at hc
  set m := l.dropWhile pyIsSpace with hm
  set r := m.reverse.dropWhile pyIsSpace with hr
  rw [List.head?_reverse] at hc
  have hrne : r ≠ [] := by
    intro h0; rw [h0] at hc; simp at hc
  have h1 : r.getLast? = m.reverse.getLast? := dropWhile_getLast pyIsSpace m.reverse hrne
  have h2 : m.reverse.getLast? = m.head? := by
    have := List.head?_reverse m.reverse
    rw [List.reverse_reverse] at this
    exact this.symm
  rw [h1, h2] at hc
  exact dropWhile_head_not pyIsSpace l c hc

theorem pyStrip_getLast_not_ws (l : List Char) :
    ∀ c, (pyStrip l).getLast? = some c → pyIsSpace c = false := by
  intro c hc
  unfold pyStrip at hc
  set m := l.dropWhile pyIsSpace with hm
  set r := m.reverse.dropWhile pyIsSpace with hr
  have h1 : r.reverse.getLast? = r.head? := by
    have := List.head?_reverse r.reverse
    rw [List.reverse_reverse] at this
    exact this.symm
  rw [h1] at hc
  exact dropWhile_head_not pyIsSpace m.reverse c hc

theorem pyStrip_eq_self (l : List Char)
    (hh : ∀ c, l.head? = some c → pyIsSpace c = false)
    (hl : ∀ c, l.getLast? = some c → pyIsSpace c = false) : pyStrip l = l := by
  unfold pyStrip
  rw [dropWhile_eq_self pyIsSpace l hh]
  rw [dropWhile_eq_self pyIsSpace l.reverse (by intro c hc; rw [List.head?_reverse] at hc; exact hl c hc)]
  exact List.reverse_reverse l

theorem noAdjWs_map_fix (l : List Char) : noAdjWs (l.map fixChar) = noAdjWs l := by
  induction l with
  | nil => rfl
  | cons x rest ih =>
    cases rest with
    | nil => rfl
    | cons y t =>
      simp only [List.map_cons, noAdjWs, fixChar_ws] at *
      rw [ih]

theorem clean_data (s : String) :
    (_clean_ocr_text s).data = (collapseWs (pyStrip s.data)).map fixChar := by
  simp [_clean_ocr_text, pyReplaceChar_comp]

/-- The base part of the cleaner output, before character substitution. -/
theorem clean_base_head (s : String) :
    ∀ c, (collapseWs (pyStrip s.data)).head? = some c → pyIsSpace c = false := by
  unfold collapseWs
  exact collapseWsAux_head_not_ws (pyStrip s.data) (pyStrip_head_not_ws s.data)

theorem clean_base_getLast (s : String) :
    ∀ c, (collapseWs (pyStrip s.data)).getLast? = some c → pyIsSpace c = false := by
  unfold collapseWs
  exact collapseWsAux_getLast (pyStrip s.data) false (pyStrip_getLast_not_ws s.data)

theorem clean_head (s : String) :
    ∀ c, (_clean_ocr_text s).data.head? = some c → pyIsSpace c = false := by
  intro c hc
  rw [clean_data, List.head?_map] at hc
  cases hb : (collapseWs (pyStrip s.data)).head? with
  | none => rw [hb] at hc; simp at hc
  | some d =>
    rw [hb] at hc
    simp only [Option.map_some', Option.some.injEq] at hc
    subst hc
    rw [fixChar_ws]
    exact clean_base_head s d hb

theorem clean_getLast (s : String) :
    ∀ c, (_clean_ocr_text s).data.getLast? = some c → pyIsSpace c = false := by
  intro c hc
  rw [clean_data, List.getLast?_map] at hc
  cases hb : (collapseWs (pyStrip s.data)).getLast? with
  | none => rw [hb] at hc; simp at hc
  | some d =>
    rw [hb] at hc
    simp only [Option.map_some', Option.some.injEq] at hc
    subst hc
    rw [fixChar_ws]
    exact clean_base_getLast s d hb

theorem clean_noAdj (s : String) : noAdjWs (_clean_ocr_text s).data = true := by
  rw [clean_data, noAdjWs_map_fix]
  exact collapseWsAux_noAdj (pyStrip s.data) false

theorem clean_ws_space (s : String) :
    ∀ c ∈ (_clean_ocr_text s).data, pyIsSpace c = true → c = ' ' := by
  intro c hc hws
  rw [clean_data] at hc
  obtain ⟨d, hd, hdc⟩ := List.mem_map.mp hc
  subst hdc
  rw [fixChar_ws] at hws
  have := collapseWsAux_ws_eq_space (pyStrip s.data) false d hd hws
  rw [this, fixChar_space]

theorem clean_no_pipe (s : String) : '|' ∉ (_clean_ocr_text s).data := by
  intro hmem
  rw [clean_data] at hmem
  obtain ⟨d, _, hdc⟩ := List.mem_map.mp hmem
  exact fixChar_ne_pipe d hdc

theorem clean_no_zero (s : String) : '0' ∉ (_clean_ocr_text s).data := by
  intro hmem
  rw [clean_data] at hmem
  obtain ⟨d, _, hdc⟩ := List.mem_map.mp hmem
  exact fixChar_ne_zero d hdc

theorem map_fix_self (l : List Char) (h : ∀ c ∈ l, fixChar c = c) : l.map fixChar = l := by
  induction l with
  | nil => rfl
  | cons x rest ih =>
    simp only [List.map_cons]
    rw [h x (List.mem_cons_self x rest), ih (fun c hc => h c (List.mem_cons_of_mem x hc))]

theorem clean_idempotent (s : String) :
    _clean_ocr_text (_clean_ocr_text s) = _clean_ocr_text s := by
  have hout : (_clean_ocr_text (_clean_ocr_text s)).data = (_clean_ocr_text s).data := by
    rw [clean_data (_clean_ocr_text s)]
    rw [pyStrip_eq_self (_clean_ocr_text s).data (clean_head s) (clean_getLast s)]
    unfold collapseWs
    rw [collapseWsAux_eq_self (_clean_ocr_text s).data (clean_ws_space s) (clean_noAdj s)]
    refine map_fix_self _ (fun c hc => ?_)
    exact fixChar_fixed c (fun h => clean_no_pipe s (h ▸ hc)) (fun h => clean_no_zero s (h ▸ hc))
  exact congrArg String.mk hout

/-! ## Non-emptiness of every field group -/

theorem ite_isEmpty_ne_nil {α : Type} (l d : List α) (hd : d ≠ []) :
    (if l.isEmpty then d else l) ≠ [] := by
  by_cases h : l.isEmpty
  · simpa [h] using hd
  · simp only [h, Bool.false_eq_true, if_false]
    simpa [List.isEmpty_iff] using h

theorem extract_diagnoses_ne_nil (t : String) : _extract_diagnoses t ≠ [] :=
  ite_isEmpty_ne_nil _ _ (List.cons_ne_nil _ _)

theorem extract_procedures_ne_nil (t : String) : _extract_procedures t ≠ [] :=
  ite_isEmpty_ne_nil _ _ (List.cons_ne_nil _ _)

theorem extract_medications_ne_nil (t : String) : _extract_medications t ≠ [] :=
  ite_isEmpty_ne_nil _ _ (List.cons_ne_nil _ _)

theorem patient_shape (p : Patient) :
    ((if p.name.isNone && p.age.isNone
       then ({ name := some "Jane Doe", age := some 34 } : Patient) else p).name.isSome ∨
     (if p.name.isNone && p.age.isNone
       then ({ name := some "Jane Doe", age := some 34 } : Patient) else p).age.isSome) := by
  by_cases h : (p.name.isNone && p.age.isNone) = true
  · simp [h]
  · rw [if_neg h]
    cases hn : p.name with
    | some v => left; simp [hn]
    | none =>
      cases ha : p.age with
      | some v => right; simp [ha]
      | none => exact absurd (by simp [hn, ha]) h

theorem extract_patient_nonempty (t : String) :
    (_extract_patient_info t).name.isSome ∨ (_extract_patient_info t).age.isSome :=
  patient_shape _

theorem format_currency_ne_empty (s : String) : (format_currency s).data ≠ [] := by
  unfold format_currency
  split
  · decide
  · split
    · simp
    · decide

theorem extract_total_ne_empty (t : String) : _extract_total_amount t ≠ "" := by
  unfold _extract_total_amount
  cases h : firstAmountMatch t with
  | none => simp only [h]; decide
  | some amt =>
    simp only [h]
    intro heq
    exact format_currency_ne_empty _ (by rw [heq])

/-! ## Claim theorems: assembler totality and failure -/

/-- C1: for every non-empty, non-whitespace-only input string,
`extract_claim_data` returns a claim record whose field groups are all
non-empty: diagnoses, medications and procedures each have at least one
entry, `total_amount` is a non-empty string, the patient object has at
least one of name/age, and the admission object carries its
`was_admitted` boolean. -/
theorem claimC1_extract_all_fields_nonempty (s : String) (h : pyStrip s.data ≠ []) :
    ∃ r, extract_claim_data s = .ok r ∧ r.diagnoses ≠ [] ∧ r.medications ≠ [] ∧
      r.procedures ≠ [] ∧ r.total_amount ≠ "" ∧
      (r.patient.name.isSome ∨ r.patient.age.isSome) ∧
      (r.admission.was_admitted = true ∨ r.admission.was_admitted = false) := by
  have hdata : s.data ≠ [] := by
    intro h0
    exact h (by rw [h0]; rfl)
  have hcond : (s.data.isEmpty || (pyStrip s.data).isEmpty) = false := by
    simp [List.isEmpty_iff, hdata, h]
  refine ⟨{ patient := _extract_patient_info (_clean_ocr_text s),
            diagnoses := _extract_diagnoses (_clean_ocr_text s),
            medications := _extract_medications (_clean_ocr_text s),
            procedures := _extract_procedures (_clean_ocr_text s),
            admission := _extract_admission_info (_clean_ocr_text s),
            total_amount := _extract_total_amount (_clean_ocr_text s) },
    ?_, extract_diagnoses_ne_nil _, extract_medications_ne_nil _,
    extract_procedures_ne_nil _, extract_total_ne_empty _,
    extract_patient_nonempty _, ?_⟩
  · unfold extract_claim_data
    rw [hcond]
    simp
  · cases (_extract_admission_info (_clean_ocr_text s)).was_admitted
    · right; rfl
    · left; rfl

/-- Witness for C1 at the concrete input `"x"`. -/
theorem claimC1_extract_all_fields_nonempty_witness :
    pyStrip "x".data ≠ [] ∧
    (∃ r, extract_claim_data "x" = .ok r ∧ r.diagnoses ≠ [] ∧ r.medications ≠ [] ∧
      r.procedures ≠ [] ∧ r.total_amount ≠ "" ∧
      (r.patient.name.isSome ∨ r.patient.age.isSome) ∧
      (r.admission.was_admitted = true ∨ r.admission.was_admitted = false)) :=
  ⟨by decide, claimC1_extract_all_fields_nonempty "x" (by decide)⟩

/-- C2: for every empty or whitespace-only input, `extract_claim_data`
fails with the single extraction-error kind (never any other error and
never a record), the emptiness check firing before normalization, and the
wrapped message preserving the original cause string
"Empty OCR text provided". -/
theorem claimC2_extract_empty_input_error (s : String) (h : pyStrip s.data = []) :
    extract_claim_data s =
      .error (.extractionError "Failed to extract claim data: Empty OCR text provided") := by
  unfold extract_claim_data
  have hcond : (s.data.isEmpty || (pyStrip s.data).isEmpty) = true := by
    simp [List.isEmpty_iff, h]
  rw [hcond]
  simp

/-- Witness for C2 at the concrete whitespace-only input `" "`. -/
theorem claimC2_extract_empty_input_error_witness :
    pyStrip " ".data = [] ∧
    extract_claim_data " " =
      .error (.extractionError "Failed to extract claim data: Empty OCR text provided") :=
  ⟨by decide, claimC2_extract_empty_input_error " " (by decide)⟩

/-- C10: the text normalizer is idempotent, and its output never contains
the pipe character, the digit zero, leading or trailing whitespace, or two
adjacent whitespace characters. -/
theorem claimC10_cleaner_idempotent_and_clean (s : String) :
    _clean_ocr_text (_clean_ocr_text s) = _clean_ocr_text s ∧
    '|' ∉ (_clean_ocr_text s).data ∧
    '0' ∉ (_clean_ocr_text s).data ∧
    (∀ c, (_clean_ocr_text s).data.head? = some c → pyIsSpace c = false) ∧
    (∀ c, (_clean_ocr_text s).data.getLast? = some c → pyIsSpace c = false) ∧
    noAdjWs (_clean_ocr_text s).data = true :=
  ⟨clean_idempotent s, clean_no_pipe s, clean_no_zero s, clean_head s,
    clean_getLast s, clean_noAdj s⟩

/-! ## The all-or-nothing patient fallback -/

/-- C8: the patient fallback is all-or-nothing.  Either the combined
extraction result is empty (falsy name and falsy age) and the whole fixed
default identity is returned, or the returned object is exactly the one
built from the two `safe_extract_text_field` calls (title-cased name when
truthy, parsed non-zero age when all-digit) and contains at least one
extracted field; name and age are never defaulted independently. -/
theorem claimC8_patient_fallback_all_or_nothing (text : String) :
    ((safe_extract_text_field text patient_name_patterns).isEmpty = true ∧
      (pyIsDigitStr (safe_extract_text_field text patient_age_patterns).data = false ∨
        digitsToNat (safe_extract_text_field text patient_age_patterns).data = 0) ∧
      _extract_patient_info text = { name := some "Jane Doe", age := some 34 })
    ∨ (_extract_patient_info text =
        { name := if !(safe_extract_text_field text patient_name_patterns).isEmpty
                  then some (String.mk (pyTitle (safe_extract_text_field text patient_name_patterns).data))
                  else none,
          age := if pyIsDigitStr (safe_extract_text_field text patient_age_patterns).data &&
                    digitsToNat (safe_extract_text_field text patient_age_patterns).data != 0
                 then some (digitsToNat (safe_extract_text_field text patient_age_patterns).data)
                 else none } ∧
      ((_extract_patient_info text).name.isSome ∨ (_extract_patient_info text).age.isSome)) := by
  by_cases hn : (safe_extract_text_field text patient_name_patterns).isEmpty
  · by_cases hd : pyIsDigitStr (safe_extract_text_field text patient_age_patterns).data
    · by_cases hz : digitsToNat (safe_extract_text_field text patient_age_patterns).data = 0
      · left
        refine ⟨hn, Or.inr hz, ?_⟩
        unfold _extract_patient_info
        simp [hn, hd, hz]
      · right
        constructor
        · unfold _extract_patient_info
          simp [hn, hd, hz]
        · right
          unfold _extract_patient_info
          simp [hn, hd, hz]
    · left
      refine ⟨hn, Or.inl (by simpa using hd), ?_⟩
      unfold _extract_patient_info
      simp [hn, hd]
  · right
    constructor
    · unfold _extract_patient_info
      simp only [hn, Bool.false_eq_true]
      by_cases hd : pyIsDigitStr (safe_extract_text_field text patient_age_patterns).data
      · by_cases hz : digitsToNat (safe_extract_text_field text patient_age_patterns).data = 0
        · simp [hd, hz]
        · simp [hd, hz]
      · simp [hd]
    · left
      unfold _extract_patient_info
      simp [hn]

/-! ## Admission dates: defaults and one-sided extraction -/

set_option maxRecDepth 1000000 in
/-- C9 counterexample: on the input `"discharged: 1/2/23"`,
`extract_claim_data` returns an admission object with no admission date
but a discharge date — exactly one of the two dates is set, refuting the
claim that no returned admission object has exactly one date. -/
theorem claimC9_counterexample :
    ((extract_claim_data "discharged: 1/2/23").map fun r => r.admission) =
      .ok { was_admitted := false, admission_date := none,
            discharge_date := some "2023-02-01" } ∧
    (none : Option String).isSome ≠ (some "2023-02-01" : Option String).isSome :=
  ⟨by rfl, by decide⟩

/-- C9 amended: when `was_admitted` is true and the admission-date patterns
matched nothing, both dates are set to the fixed default pair
2023-06-10 / 2023-06-12 (overwriting any extracted discharge date);
otherwise the two dates are kept as extracted independently, so an
admission object can carry exactly one date. -/
theorem claimC9_amended_default_pair (text : String)
    (hw : wasAdmittedFlag text = true) (ha : (rawDates text).1 = none) :
    _extract_admission_info text =
      { was_admitted := true, admission_date := some "2023-06-10",
        discharge_date := some "2023-06-12" } := by
  unfold _extract_admission_info
  simp [hw, ha, optStrFalsy]

/-- Witness for the amended C9 at the concrete input `"ward"`. -/
theorem claimC9_amended_default_pair_witness :
    wasAdmittedFlag "ward" = true ∧ (rawDates "ward").1 = none ∧
    _extract_admission_info "ward" =
      { was_admitted := true, admission_date := some "2023-06-10",
        discharge_date := some "2023-06-12" } :=
  ⟨by rfl, by rfl, claimC9_amended_default_pair "ward" (by rfl) (by rfl)⟩

/-! ## The fixed scenario (diagnosis / paracetamol / total 15000) -/

/-- An input containing the three scenario lines "Paracetamol 500mg …
10 tablets", "Total: 15000" and "Diagnosis: Malaria". -/
def c3input : String :=
  "Paracetamol 500mg - Quantity: 10 tablets\nTotal: 15000\nDiagnosis: Malaria"

set_option maxRecDepth 1000000 in
/-- C3 counterexample: on a concrete input containing the scenario lines,
the extracted `total_amount` is `"₦15.00"`, not `"₦15,000.00"` — the
cleaner's 0→O substitution turns "15000" into "15OOO", of which the amount
pattern only captures "15". -/
theorem claimC3_counterexample :
    ((extract_claim_data c3input).map fun r => r.total_amount) = .ok "₦15.00" ∧
    ((extract_claim_data c3input).map fun r => r.total_amount) ≠ .ok "₦15,000.00" := by
  have h : ((extract_claim_data c3input).map fun r => r.total_amount) = .ok "₦15.00" := by rfl
  refine ⟨h, ?_⟩
  rw [h]
  intro hcon
  exact absurd (Except.ok.inj hcon) (by decide)

set_option maxRecDepth 1000000 in
/-- C3 amended: on the concrete scenario input (with the diagnosis line
last, so the greedy letters-and-spaces capture is not polluted by the
following collapsed lines), extraction returns `diagnoses = ["Malaria"]`,
the single medication entry Paracetamol / 500mg / 10 tablets (produced by
the known-medication fallback, since the 0→O substitution breaks the
dosage/quantity regexes), and `total_amount = "₦15.00"`. -/
theorem claimC3_amended_scenario :
    extract_claim_data c3input = .ok
      { patient := { name := some "Jane Doe", age := some 34 },
        diagnoses := ["Malaria"],
        medications := [{ name := "Paracetamol", dosage := "500mg",
                          quantity := "10 tablets" }],
        procedures := ["Malaria Test"],
        admission := { was_admitted := false, admission_date := none,
                       discharge_date := none },
        total_amount := "₦15.00" } := by rfl

/-! ## Storage: enrichment, not-found behaviour and access counting -/

/-- C4: `store_claim` always succeeds and stores the enriched document —
the claim together with metadata carrying the document id, both timestamps
set to now, and `access_count` initialised to 0.  The Python function,
however, is annotated `-> None` and returns nothing to its caller: the
enriched record only reaches the store (the claim that the function
*returns* the enriched record is what the route's own test expects and
what the spec asserts, and is false of the code). -/
theorem claimC4_store_enriches_store_only (now : Nat) (document_id : String)
    (claim_data : ClaimRecord) (st : Store) :
    (store_claim now document_id claim_data st).lookup document_id =
      some { claim := claim_data,
             meta := { document_id := document_id, created_at := now,
                       last_accessed := now, access_count := 0 } } := by
  simp [store_claim, List.lookup]

/-- C5: `get_claim` fails with the not-found error exactly when the id is
absent; a stored claim read once has `access_count = 1` and
`last_accessed ≥ created_at`, and a second read yields `access_count = 2`. -/
theorem claimC5_get_claim_not_found_and_access_count :
    (∀ now id (st : Store),
      (∃ e, get_claim now id st = .error e) ↔ st.lookup id = none) ∧
    (∀ id claim t0 t1 t2 (st : Store), t0 ≤ t1 → t1 ≤ t2 →
      ∃ d1 st2, get_claim t1 id (store_claim t0 id claim st) = .ok (d1, st2) ∧
        d1.meta.access_count = 1 ∧ d1.meta.created_at = t0 ∧
        d1.meta.last_accessed = t1 ∧ d1.meta.created_at ≤ d1.meta.last_accessed ∧
        ∃ d2 st3, get_claim t2 id st2 = .ok (d2, st3) ∧
          d2.meta.access_count = 2 ∧ d2.meta.last_accessed = t2) := by
  constructor
  · intro now id st
    cases h : st.lookup id with
    | none => simp [get_claim, h]
    | some doc => simp [get_claim, h]
  · intro id claim t0 t1 t2 st h01 h12
    have hlk1 : (store_claim t0 id claim st).lookup id =
        some { claim := claim,
               meta := { document_id := id, created_at := t0,
                         last_accessed := t0, access_count := 0 } } := by
      simp [store_claim, List.lookup]
    refine ⟨{ claim := claim,
              meta := { document_id := id, created_at := t0,
                        last_accessed := t1, access_count := 1 } },
            (store_claim t0 id claim st).map fun p =>
              if p.1 = id then
                (id, ({ claim := claim,
                        meta := { document_id := id, created_at := t0,
                                  last_accessed := t1, access_count := 1 } } : StoredDoc))
              else p,
            ?_, rfl, rfl, rfl, h01, ?_⟩
    · simp only [get_claim, hlk1]
    · have hlk2 :
          ((store_claim t0 id claim st).map fun p =>
            if p.1 = id then
              (id, ({ claim := claim,
                      meta := { document_id := id, created_at := t0,
                                last_accessed := t1, access_count := 1 } } : StoredDoc))
            else p).lookup id =
          some { claim := claim,
                 meta := { document_id := id, created_at := t0,
                           last_accessed := t1, access_count := 1 } } := by
        simp only [store_claim, List.map_cons, if_pos]
        simp [List.lookup]
      refine ⟨{ claim := claim,
                meta := { document_id := id, created_at := t0,
                          last_accessed := t2, access_count := 2 } },
              ((store_claim t0 id claim st).map fun p =>
                if p.1 = id then
                  (id, ({ claim := claim,
                          meta := { document_id := id, created_at := t0,
                                    last_accessed := t1, access_count := 1 } } : StoredDoc))
                else p).map (fun p =>
                if p.1 = id then
                  (id, ({ claim := claim,
                          meta := { document_id := id, created_at := t0,
                                    last_accessed := t2, access_count := 2 } } : StoredDoc))
                else p),
              ?_, rfl, rfl⟩
      simp only [get_claim, hlk2]

/-- A concrete claim record for the storage witness. -/
def sampleClaim : ClaimRecord :=
  { patient := { name := some "Jane Doe", age := some 34 },
    diagnoses := ["Malaria"],
    medications := [{ name := "Paracetamol", dosage := "500mg", quantity := "10 tablets" }],
    procedures := ["Malaria Test"],
    admission := { was_admitted := false, admission_date := none, discharge_date := none },
    total_amount := "₦15,000" }

/-- Witness for C5 at concrete values (store at time 0, reads at times 1 and 2). -/
theorem claimC5_get_claim_witness :
    (0 : Nat) ≤ 1 ∧ (1 : Nat) ≤ 2 ∧
    (∃ d1 st2, get_claim 1 "id1" (store_claim 0 "id1" sampleClaim []) = .ok (d1, st2) ∧
      d1.meta.access_count = 1 ∧ d1.meta.created_at = 0 ∧
      d1.meta.last_accessed = 1 ∧ d1.meta.created_at ≤ d1.meta.last_accessed ∧
      ∃ d2 st3, get_claim 2 "id1" st2 = .ok (d2, st3) ∧
        d2.meta.access_count = 2 ∧ d2.meta.last_accessed = 2) :=
  ⟨by decide, by decide,
    claimC5_get_claim_not_found_and_access_count.2 "id1" sampleClaim 0 1 2 []
      (by decide) (by decide)⟩

/-! ## Currency formatting never fails outward -/

/-- C7: `format_currency` is a total function (the embedding is a plain
function, never an exception): `"15000"` formats to `"₦15,000.00"` with the
fixed symbol, two decimals and a thousands separator; `"not-a-number"`
yields the fixed zero fallback; and every input whose cleaned form (after
removing commas and currency symbols and stripping) the `Decimal`
constructor rejects yields `"₦0.00"`. -/
theorem claimC7_format_currency_failsafe :
    format_currency "15000" = "₦15,000.00" ∧
    format_currency "not-a-number" = "₦0.00" ∧
    ∀ s, parsePyDecimal (pyStrip (stripCurrencySyms s.data)) = none →
      format_currency s = "₦0.00" := by
  refine ⟨by rfl, by rfl, ?_⟩
  intro s h
  unfold format_currency
  by_cases he : s.data.isEmpty
  · simp [he]
  · simp [he, h]

/-- Witness for C7's universal part at the concrete input `"abc"`. -/
theorem claimC7_format_currency_failsafe_witness :
    parsePyDecimal (pyStrip (stripCurrencySyms "abc".data)) = none ∧
    format_currency "abc" = "₦0.00" :=
  ⟨by rfl, claimC7_format_currency_failsafe.2.2 "abc" (by rfl)⟩

/-! ## Currency shape of the extracted total -/

/-- Grouping checker over the reversed integer part: groups of exactly
three digits separated by commas, with a final (leftmost) group of one to
three digits; `k` counts the digits seen since the last comma. -/
def chkRev : Nat → List Char → Bool
  | k, [] => decide (1 ≤ k) && decide (k ≤ 3)
  | k, c :: rest =>
    if c = ',' then decide (k = 3) && chkRev 0 rest
    else c.isDigit && decide (k < 3) && chkRev (k + 1) rest

/-- A well-formed currency amount: the fixed naira symbol followed by a
comma-grouped digit integer part, a dot, and exactly two decimal digits. -/
def isMoney (s : String) : Bool :=
  match s.data with
  | '₦' :: rest =>
    (match rest.reverse with
     | a :: b :: '.' :: ri => a.isDigit && b.isDigit && chkRev 0 ri
     | _ => false)
  | _ => false

theorem digitChar_isDigit (m : Nat) : (digitChar m).isDigit = true := by
  unfold digitChar
  split <;> decide

theorem natDigitsRevF_digits (f : Nat) :
    ∀ n c, c ∈ natDigitsRevF f n → c.isDigit = true := by
  induction f with
  | zero => intro n c hc; simp [natDigitsRevF] at hc
  | succ f ih =>
    intro n c hc
    unfold natDigitsRevF at hc
    by_cases hn : n = 0
    · simp [hn] at hc
    · simp only [hn, if_false, List.mem_cons] at hc
      rcases hc with h | h
      · subst h; exact digitChar_isDigit _
      · exact ih _ c h

theorem natDigits_digits (n : Nat) : ∀ c ∈ natDigits n, c.isDigit = true := by
  intro c hc
  unfold natDigits at hc
  by_cases hn : n = 0
  · simp [hn] at hc; subst hc; decide
  · simp only [hn, if_false] at hc
    exact natDigitsRevF_digits (n + 1) n c (List.mem_reverse.mp hc)

theorem natDigits_ne_nil (n : Nat) : natDigits n ≠ [] := by
  unfold natDigits
  by_cases hn : n = 0
  · simp [hn]
  · simp only [hn, if_false]
    intro h
    rw [List.reverse_eq_nil_iff] at h
    unfold natDigitsRev natDigitsRevF at h
    simp [hn] at h

theorem goR3_chkRev (rds : List Char) :
    ∀ k, (∀ c ∈ rds, c.isDigit = true) → k ≤ 3 → (1 ≤ k ∨ rds ≠ []) →
      chkRev k (goR3 k rds) = true := by
  induction rds with
  | nil =>
    intro k _ hk3 hne
    rcases hne with hk1 | hne
    · simp [goR3, chkRev, hk1, hk3]
    · exact absurd rfl hne
  | cons c rest ih =>
    intro k hdig hk3 _
    have hc : c.isDigit = true := hdig c (List.mem_cons_self c rest)
    have hcne : c ≠ ',' := by
      intro h; subst h; exact absurd hc (by decide)
    have hrest : ∀ x ∈ rest, x.isDigit = true :=
      fun x hx => hdig x (List.mem_cons_of_mem c hx)
    by_cases hk : k = 3
    · subst hk
      show chkRev 3 (goR3 3 (c :: rest)) = true
      have : goR3 3 (c :: rest) = ',' :: c :: goR3 1 rest := by
        simp [goR3]
      rw [this]
      unfold chkRev
      simp only [if_pos rfl]
      unfold chkRev
      simp only [hcne, if_false, hc]
      simpa using ih 1 hrest (by omega) (Or.inl (by omega))
    · have : goR3 k (c :: rest) = c :: goR3 (k + 1) rest := by
        simp [goR3, hk]
      rw [this]
      unfold chkRev
      simp only [hcne, if_false, hc]
      have hk3' : k < 3 := by omega
      simpa [hk3'] using ih (k + 1) hrest (by omega) (Or.inl (by omega))

theorem fmt2_fin_isMoney (n : Nat) (e : Int) :
    isMoney (String.mk ('₦' :: fmt2 (.fin false n e))) = true := by
  unfold isMoney fmt2
  simp only [Bool.false_eq_true, if_false, List.nil_append]
  have hrev :
      (group3 (natDigits (centsOf n e / 100)) ++
        '.' :: twoFrac (centsOf n e % 100)).reverse =
      digitChar (centsOf n e % 100 % 10) :: digitChar (centsOf n e % 100 / 10 % 10) ::
        '.' :: (group3 (natDigits (centsOf n e / 100))).reverse := by
    simp [twoFrac, List.reverse_append]
  rw [hrev]
  simp only [digitChar_isDigit, Bool.true_and]
  unfold group3
  rw [List.reverse_reverse]
  exact goR3_chkRev (natDigits (centsOf n e / 100)).reverse 0
    (fun c hc => natDigits_digits _ c (List.mem_reverse.mp hc))
    (by omega)
    (Or.inr (by
      intro h
      rw [List.reverse_eq_nil_iff] at h
      exact natDigits_ne_nil _ h))

/-! ## Capture charset soundness of the engine -/

/-- Every character accepted by a character node of the pattern satisfies
`S`. -/
def matchableWithin (S : Char → Prop) : RE → Prop
  | .eps => True
  | .chr c => ∀ x, lowEq x c = true → S x
  | .cls p => ∀ x, p x = true → S x
  | .seq a b => matchableWithin S a ∧ matchableWithin S b
  | .alt a b => matchableWithin S a ∧ matchableWithin S b
  | .starG a => matchableWithin S a
  | .starL a => matchableWithin S a
  | .optG a => matchableWithin S a
  | .group _ a => matchableWithin S a
  | .bnd => True
  | .eol => True

/-- Every capturing group numbered `n` inside the pattern consumes only
characters in `gcs n`. -/
def groupsWithin (gcs : Nat → Char → Prop) : RE → Prop
  | .seq a b => groupsWithin gcs a ∧ groupsWithin gcs b
  | .alt a b => groupsWithin gcs a ∧ groupsWithin gcs b
  | .starG a => groupsWithin gcs a
  | .starL a => groupsWithin gcs a
  | .optG a => groupsWithin gcs a
  | .group n a => matchableWithin (gcs n) a ∧ groupsWithin gcs a
  | _ => True

/-- All recorded captures lie in their group's charset. -/
def CapsOK (gcs : Nat → Char → Prop) (caps : Caps) : Prop :=
  ∀ p ∈ caps, ∀ c ∈ p.2, gcs p.1 c

/-- Pattern has no capturing group. -/
def hasGroup : RE → Bool
  | .seq a b => hasGroup a || hasGroup b
  | .alt a b => hasGroup a || hasGroup b
  | .starG a => hasGroup a
  | .starL a => hasGroup a
  | .optG a => hasGroup a
  | .group _ _ => true
  | _ => false

theorem groupsWithin_of_not_hasGroup (gcs : Nat → Char → Prop) (re : RE)
    (h : hasGroup re = false) : groupsWithin gcs re := by
  induction re with
  | seq a b iha ihb =>
    simp only [hasGroup, Bool.or_eq_false_iff] at h
    exact ⟨iha h.1, ihb h.2⟩
  | alt a b iha ihb =>
    simp only [hasGroup, Bool.or_eq_false_iff] at h
    exact ⟨iha h.1, ihb h.2⟩
  | starG a iha => exact iha h
  | starL a iha => exact iha h
  | optG a iha => exact iha h
  | group n a _ => simp [hasGroup] at h
  | eps => trivial
  | chr c => trivial
  | cls p => trivial
  | bnd => trivial
  | eol => trivial

theorem matchableWithin_trivial (re : RE) : matchableWithin (fun _ => True) re := by
  induction re with
  | seq a b iha ihb => exact ⟨iha, ihb⟩
  | alt a b iha ihb => exact ⟨iha, ihb⟩
  | starG a iha => exact iha
  | starL a iha => exact iha
  | optG a iha => exact iha
  | group n a iha => exact iha
  | eps => trivial
  | chr c => intro x _; trivial
  | cls p => intro x _; trivial
  | bnd => trivial
  | eol => trivial

theorem matchableWithin_and (S T : Char → Prop) (re : RE)
    (hs : matchableWithin S re) (ht : matchableWithin T re) :
    matchableWithin (fun c => S c ∧ T c) re := by
  induction re with
  | seq a b iha ihb => exact ⟨iha hs.1 ht.1, ihb hs.2 ht.2⟩
  | alt a b iha ihb => exact ⟨iha hs.1 ht.1, ihb hs.2 ht.2⟩
  | starG a iha => exact iha hs ht
  | starL a iha => exact iha hs ht
  | optG a iha => exact iha hs ht
  | group n a iha => exact iha hs ht
  | eps => trivial
  | chr c => exact fun x hx => ⟨hs x hx, ht x hx⟩
  | cls p => exact fun x hx => ⟨hs x hx, ht x hx⟩
  | bnd => trivial
  | eol => trivial

theorem mtchGo_consumed
    (recur : RE → List Char → List Char → Caps →
      (List Char → List Char → Caps → Option SearchRes) → Option SearchRes)
    (hrec : ∀ re left right caps k res (S : Char → Prop)
        (gcs : Nat → Char → Prop) (P : Prop),
      matchableWithin S re → groupsWithin gcs re → CapsOK gcs caps →
      recur re left right caps k = some res →
      (∀ left2 right2 caps2,
        (∃ pre, right = pre ++ right2 ∧ ∀ c ∈ pre, S c) →
        CapsOK gcs caps2 → k left2 right2 caps2 = some res → P) → P) :
    ∀ re left right caps k res (S : Char → Prop) (gcs : Nat → Char → Prop) (P : Prop),
      matchableWithin S re → groupsWithin gcs re → CapsOK gcs caps →
      mtchGo recur re left right caps k = some res →
      (∀ left2 right2 caps2,
        (∃ pre, right = pre ++ right2 ∧ ∀ c ∈ pre, S c) →
        CapsOK gcs caps2 → k left2 right2 caps2 = some res → P) → P := by
  intro re
  induction re with
  | eps =>
    intro left right caps k res S gcs P _ _ hcap hm hk
    exact hk left right caps ⟨[], rfl, by intro c hc; simp at hc⟩ hcap hm
  | chr ch =>
    intro left right caps k res S gcs P hma _ hcap hm hk
    unfold mtchGo at hm
    split at hm
    · cases hm
    · rename_i x rest
      split at hm
      · rename_i hx
        refine hk (x :: left) rest caps ⟨[x], rfl, ?_⟩ hcap hm
        intro c hc
        rw [List.mem_singleton] at hc
        rw [hc]
        exact hma x hx
      · cases hm
  | cls p =>
    intro left right caps k res S gcs P hma _ hcap hm hk
    unfold mtchGo at hm
    split at hm
    · cases hm
    · rename_i x rest
      split at hm
      · rename_i hx
        refine hk (x :: left) rest caps ⟨[x], rfl, ?_⟩ hcap hm
        intro c hc
        rw [List.mem_singleton] at hc
        rw [hc]
        exact hma x hx
      · cases hm
  | seq a b iha ihb =>
    intro left right caps k res S gcs P hma hgr hcap hm hk
    unfold mtchGo at hm
    refine iha left right caps _ res S gcs P hma.1 hgr.1 hcap hm ?_
    intro l1 r1 c1 hpre1 hc1 hcall
    obtain ⟨pre1, hr1, hp1⟩ := hpre1
    refine ihb l1 r1 c1 k res S gcs P hma.2 hgr.2 hc1 hcall ?_
    intro l2 r2 c2 hpre2 hc2 hcall2
    obtain ⟨pre2, hr2, hp2⟩ := hpre2
    refine hk l2 r2 c2 ⟨pre1 ++ pre2, ?_, ?_⟩ hc2 hcall2
    · rw [hr1, hr2, List.append_assoc]
    · intro c hc
      rcases List.mem_append.mp hc with h | h
      · exact hp1 c h
      · exact hp2 c h
  | alt a b iha ihb =>
    intro left right caps k res S gcs P hma hgr hcap hm hk
    unfold mtchGo at hm
    cases hcase : mtchGo recur a left right caps k with
    | some r0 =>
      rw [hcase] at hm
      exact iha left right caps k res S gcs P hma.1 hgr.1 hcap
        (Option.some.inj hm ▸ hcase) hk
    | none =>
      rw [hcase] at hm
      exact ihb left right caps k res S gcs P hma.2 hgr.2 hcap hm hk
  | starG a iha =>
    intro left right caps k res S gcs P hma hgr hcap hm hk
    unfold mtchGo at hm
    cases hcase : mtchGo recur a left right caps (fun l r c =>
        if r.length < right.length then recur (.starG a) l r c k else none) with
    | none =>
      rw [hcase] at hm
      exact hk left right caps ⟨[], rfl, by intro c hc; simp at hc⟩ hcap hm
    | some r0 =>
      rw [hcase] at hm
      refine iha left right caps _ res S gcs P hma hgr hcap
        (Option.some.inj hm ▸ hcase) ?_
      intro l1 r1 c1 hpre1 hc1 hcall
      obtain ⟨pre1, hr1, hp1⟩ := hpre1
      by_cases hlt : r1.length < right.length
      · rw [if_pos hlt] at hcall
        refine hrec (.starG a) l1 r1 c1 k res S gcs P hma hgr hc1 hcall ?_
        intro l2 r2 c2 hpre2 hc2 hcall2
        obtain ⟨pre2, hr2, hp2⟩ := hpre2
        refine hk l2 r2 c2 ⟨pre1 ++ pre2, ?_, ?_⟩ hc2 hcall2
        · rw [hr1, hr2, List.append_assoc]
        · intro c hc
          rcases List.mem_append.mp hc with h | h
          · exact hp1 c h
          · exact hp2 c h
      · rw [if_neg hlt] at hcall; cases hcall
  | starL a iha =>
    intro left right caps k res S gcs P hma hgr hcap hm hk
    unfold mtchGo at hm
    cases hcase : k left right caps with
    | some r0 =>
      rw [hcase] at hm
      exact hk left right caps ⟨[], rfl, by intro c hc; simp at hc⟩ hcap
        (Option.some.inj hm ▸ hcase)
    | none =>
      rw [hcase] at hm
      refine iha left right caps _ res S gcs P hma hgr hcap hm ?_
      intro l1 r1 c1 hpre1 hc1 hcall
      obtain ⟨pre1, hr1, hp1⟩ := hpre1
      by_cases hlt : r1.length < right.length
      · rw [if_pos hlt] at hcall
        refine hrec (.starL a) l1 r1 c1 k res S gcs P hma hgr hc1 hcall ?_
        intro l2 r2 c2 hpre2 hc2 hcall2
        obtain ⟨pre2, hr2, hp2⟩ := hpre2
        refine hk l2 r2 c2 ⟨pre1 ++ pre2, ?_, ?_⟩ hc2 hcall2
        · rw [hr1, hr2, List.append_assoc]
        · intro c hc
          rcases List.mem_append.mp hc with h | h
          · exact hp1 c h
          · exact hp2 c h
      · rw [if_neg hlt] at hcall; cases hcall
  | optG a iha =>
    intro left right caps k res S gcs P hma hgr hcap hm hk
    unfold mtchGo at hm
    cases hcase : mtchGo recur a left right caps k with
    | some r0 =>
      rw [hcase] at hm
      exact iha left right caps k res S gcs P hma hgr hcap
        (Option.some.inj hm ▸ hcase) hk
    | none =>
      rw [hcase] at hm
      exact hk left right caps ⟨[], rfl, by intro c hc; simp at hc⟩ hcap hm
  | group n a iha =>
    intro left right caps k res S gcs P hma hgr hcap hm hk
    unfold mtchGo at hm
    refine iha left right caps _ res (fun c => S c ∧ gcs n c) gcs P
      (matchableWithin_and S (gcs n) a hma hgr.1) hgr.2 hcap hm ?_
    intro l1 r1 c1 hpre1 hc1 hcall
    obtain ⟨pre, hr, hp⟩ := hpre1
    have hcap2 : right.take (right.length - r1.length) = pre := by
      rw [hr, List.length_append, Nat.add_sub_cancel]
      exact List.take_left pre r1
    rw [hcap2] at hcall
    refine hk l1 r1 _ ⟨pre, hr, fun c hc => (hp c hc).1⟩ ?_ hcall
    intro p hp'
    rcases List.mem_cons.mp hp' with h | h
    · subst h
      intro c hc
      exact (hp c hc).2
    · exact hc1 p h
  | bnd =>
    intro left right caps k res S gcs P _ _ hcap hm hk
    unfold mtchGo at hm
    by_cases hb : atBoundary left right = true
    · rw [if_pos hb] at hm
      exact hk left right caps ⟨[], rfl, by intro c hc; simp at hc⟩ hcap hm
    · rw [if_neg hb] at hm; cases hm
  | eol =>
    intro left right caps k res S gcs P _ _ hcap hm hk
    unfold mtchGo at hm
    by_cases hb : atEol right = true
    · rw [if_pos hb] at hm
      exact hk left right caps ⟨[], rfl, by intro c hc; simp at hc⟩ hcap hm
    · rw [if_neg hb] at hm; cases hm

theorem mtch_consumed :
    ∀ fuel re left right caps k res (S : Char → Prop) (gcs : Nat → Char → Prop) (P : Prop),
      matchableWithin S re → groupsWithin gcs re → CapsOK gcs caps →
      mtch fuel re left right caps k = some res →
      (∀ left2 right2 caps2,
        (∃ pre, right = pre ++ right2 ∧ ∀ c ∈ pre, S c) →
        CapsOK gcs caps2 → k left2 right2 caps2 = some res → P) → P := by
  intro fuel
  induction fuel with
  | zero =>
    intro re left right caps k res S gcs P _ _ _ hm _
    simp [mtch] at hm
  | succ fuel ihF =>
    intro re left right caps k res S gcs P hma hgr hcap hm hk
    rw [show mtch (fuel + 1) re left right caps k = mtchGo (mtch fuel) re left right caps k
      from rfl] at hm
    exact mtchGo_consumed (mtch fuel) ihF re left right caps k res S gcs P hma hgr hcap hm hk

theorem searchAux_caps (re : RE) (gcs : Nat → Char → Prop)
    (hgr : groupsWithin gcs re) :
    ∀ left right res, searchAux re left right = some res → CapsOK gcs res.2.2 := by
  intro left right
  induction right generalizing left with
  | nil =>
    intro res h
    rw [show searchAux re left [] =
        mtch 1 re left [] [] (fun l r c => some (l, r, c)) from rfl] at h
    refine mtch_consumed 1 re left [] [] _ res (fun _ => True) gcs _
      (matchableWithin_trivial re) hgr (by intro p hp; simp at hp) h ?_
    intro l2 r2 c2 _ hc2 hcall
    have h1 := Option.some.inj hcall
    rw [← h1]
    exact hc2
  | cons x rest ih =>
    intro res h
    rw [show searchAux re left (x :: rest) =
        (match mtch ((x :: rest).length + 1) re left (x :: rest) []
            (fun l r c => some (l, r, c)) with
         | some res => some res
         | none => searchAux re (x :: left) rest) from rfl] at h
    cases hm : mtch ((x :: rest).length + 1) re left (x :: rest) []
        (fun l r c => some (l, r, c)) with
    | some r0 =>
      simp only [hm] at h
      refine mtch_consumed _ re left (x :: rest) [] _ r0 (fun _ => True) gcs _
        (matchableWithin_trivial re) hgr (by intro p hp; simp at hp) hm ?_
      intro l2 r2 c2 _ hc2 hcall
      have h1 := Option.some.inj hcall
      have h2 := Option.some.inj h
      rw [← h2, ← h1]
      exact hc2
    | none =>
      simp only [hm] at h
      exact ih (x :: left) res h

theorem lookup_mem {α β : Type} [BEq α] [LawfulBEq α] (l : List (α × β)) (a : α) (b : β)
    (h : l.lookup a = some b) : (a, b) ∈ l := by
  induction l with
  | nil => simp [List.lookup] at h
  | cons p t ih =>
    rw [List.lookup] at h
    cases hab : (a == p.1) with
    | true =>
      simp only [hab] at h
      have : p = (a, b) := by
        have h1 : p.1 = a := (eq_of_beq hab).symm
        cases p
        simp only at h1
        simp only at h
        simp [h1, Option.some.inj h]
      rw [this]
      exact List.mem_cons_self _ t
    | false =>
      simp only [hab] at h
      exact List.mem_cons_of_mem p (ih h)

/-- The charset of the amount capture: digits, comma, dot. -/
def dcdP (c : Char) : Prop := c.isDigit = true ∨ c = ',' ∨ c = '.'

theorem matchableWithin_amtBody : matchableWithin dcdP amtBody := by
  refine ⟨⟨?_, ?_⟩, ⟨⟨?_, ⟨?_, ⟨?_, ⟨?_, trivial⟩⟩⟩⟩, ⟨⟨?_, ⟨?_, ⟨?_, trivial⟩⟩⟩, trivial⟩⟩⟩
  all_goals intro x hx
  · exact Or.inl hx
  · exact Or.inl hx
  · exact Or.inr (Or.inl (eq_of_beq hx))
  · exact Or.inl hx
  · exact Or.inl hx
  · exact Or.inl hx
  · exact Or.inr (Or.inr (eq_of_beq hx))
  · exact Or.inl hx
  · exact Or.inl hx

theorem isDigit_enum (c : Char) (h : c.isDigit = true) :
    c = '0' ∨ c = '1' ∨ c = '2' ∨ c = '3' ∨ c = '4' ∨
    c = '5' ∨ c = '6' ∨ c = '7' ∨ c = '8' ∨ c = '9' := by
  unfold Char.isDigit at h
  simp only [Bool.and_eq_true, decide_eq_true_eq] at h
  obtain ⟨h1, h2⟩ := h
  have h1' : 48 ≤ c.toNat := h1
  have h2' : c.toNat ≤ 57 := h2
  have hc := Char.ofNat_toNat c
  interval_cases hn : c.toNat <;> subst hc <;> decide

theorem digit_or_dot_facts (c : Char) (h : c.isDigit = true ∨ c = '.') :
    pyLowerChar c = c ∧ c ≠ '-' ∧ c ≠ '+' ∧ c ≠ 'i' ∧ c ≠ 'n' ∧ c ≠ 's' := by
  rcases h with h | h
  · rcases isDigit_enum c h with h | h | h | h | h | h | h | h | h | h <;>
      subst h <;> refine ⟨by decide, by decide, by decide, by decide, by decide, by decide⟩
  · subst h
    exact ⟨by decide, by decide, by decide, by decide, by decide, by decide⟩

theorem parseFinite_shape (sg : Bool) (l : List Char) (v : PyDecimal)
    (h : parseFinite sg l = some v) : ∃ n e, v = .fin sg n e := by
  simp only [parseFinite] at h
  split at h
  · cases h
  · split at h
    · exact ⟨_, _, (Option.some.inj h).symm⟩
    · split at h
      · split at h
        · split at h
          · cases h
          · exact ⟨_, _, (Option.some.inj h).symm⟩
        · cases h
      · cases h

theorem parse_digits_dot (l : List Char)
    (hl : ∀ c ∈ l, c.isDigit = true ∨ c = '.') (v : PyDecimal)
    (h : parsePyDecimal l = some v) : ∃ n e, v = .fin false n e := by
  cases l with
  | nil =>
    rw [show parsePyDecimal [] = none from rfl] at h
    cases h
  | cons c t =>
    obtain ⟨hplc, hminus, hplus, hi, hn, hs⟩ :=
      digit_or_dot_facts c (hl c (List.mem_cons_self c t))
    unfold parsePyDecimal at h
    simp only [List.head?_cons, Option.some.injEq] at h
    have h1 : (decide (c = '-') || decide (c = '+')) = false := by
      simp [hminus, hplus]
    rw [h1] at h
    simp only [Bool.false_eq_true, if_false] at h
    rw [show pyLower (c :: t) = pyLowerChar c :: pyLower t from rfl, hplc] at h
    have h2 : ¬(c :: pyLower t = ['i', 'n', 'f', 'i', 'n', 'i', 't', 'y'] ∨
        c :: pyLower t = ['i', 'n', 'f']) := by
      simp [hi]
    rw [if_neg h2] at h
    have h3 : ¬(List.take 3 (c :: pyLower t) = ['n', 'a', 'n']) := by
      simp [List.take, hn]
    rw [if_neg h3] at h
    have h4 : ¬(List.take 4 (c :: pyLower t) = ['s', 'n', 'a', 'n']) := by
      simp [List.take, hs]
    rw [if_neg h4] at h
    have h5 : (decide (c = '-')) = false := by simp [hminus]
    rw [h5] at h
    exact parseFinite_shape false (c :: t) v h

theorem mem_of_mem_dropWhile {α : Type} (p : α → Bool) (l : List α) (c : α)
    (h : c ∈ l.dropWhile p) : c ∈ l := by
  induction l with
  | nil => simp [List.dropWhile] at h
  | cons a t ih =>
    by_cases ha : p a
    · rw [List.dropWhile_cons_of_pos ha] at h
      exact List.mem_cons_of_mem a (ih h)
    · rw [List.dropWhile_cons_of_neg ha] at h
      exact h

theorem pyStrip_subset (l : List Char) (c : Char) (hc : c ∈ pyStrip l) : c ∈ l := by
  unfold pyStrip at hc
  rw [List.mem_reverse] at hc
  have h1 := mem_of_mem_dropWhile pyIsSpace _ c hc
  rw [List.mem_reverse] at h1
  exact mem_of_mem_dropWhile pyIsSpace _ c h1

theorem format_currency_isMoney (s : String)
    (hs : ∀ c ∈ s.data, c.isDigit = true ∨ c = '.') :
    isMoney (format_currency s) = true := by
  unfold format_currency
  split
  · decide
  · cases hp : parsePyDecimal (pyStrip (stripCurrencySyms s.data)) with
    | none => simp only [hp]; decide
    | some v =>
      simp only [hp]
      have hsub : ∀ c ∈ pyStrip (stripCurrencySyms s.data),
          c.isDigit = true ∨ c = '.' := by
        intro c hc
        have hm := pyStrip_subset _ c hc
        exact hs c (List.mem_filter.mp hm).1
      obtain ⟨n, e, rfl⟩ := parse_digits_dot _ hsub v hp
      exact fmt2_fin_isMoney n e

theorem groupsWithin_rseq (gcs : Nat → Char → Prop) (l : List RE)
    (h : ∀ r ∈ l, groupsWithin gcs r) : groupsWithin gcs (rseq l) := by
  induction l with
  | nil => trivial
  | cons a t ih =>
    exact ⟨h a (List.mem_cons_self a t),
      ih fun r hr => h r (List.mem_cons_of_mem a hr)⟩

theorem groupsWithin_amtG : groupsWithin (fun _ => dcdP) amtG :=
  ⟨matchableWithin_amtBody, groupsWithin_of_not_hasGroup _ amtBody rfl⟩

theorem groupsWithin_amount_patterns :
    ∀ p ∈ amount_patterns, groupsWithin (fun _ => dcdP) p := by
  intro p hp
  fin_cases hp <;>
    · refine groupsWithin_rseq _ _ ?_
      intro r hr
      fin_cases hr <;>
        first
          | exact groupsWithin_amtG
          | exact groupsWithin_of_not_hasGroup _ _ rfl

theorem reSearch_amt_group1 (p : RE) (hp : groupsWithin (fun _ => dcdP) p)
    (t : String) (m : SearchRes) (h : reSearch p t = some m) :
    ∀ c ∈ capGet m 1, dcdP c := by
  intro c hc
  have hcaps := searchAux_caps p _ hp [] t.data m h
  unfold capGet at hc
  cases hl : (m.2.2).lookup 1 with
  | none => rw [hl] at hc; simp at hc
  | some cs =>
    rw [hl] at hc
    simp only [Option.getD_some] at hc
    exact hcaps (1, cs) (lookup_mem _ _ _ hl) c hc

theorem firstAmountMatch_chars (t : String) (amt : String)
    (h : firstAmountMatch t = some amt) : ∀ c ∈ amt.data, dcdP c := by
  unfold firstAmountMatch at h
  have main : ∀ (pats : List RE), (∀ p ∈ pats, groupsWithin (fun _ => dcdP) p) →
      (pats.findSome? fun p =>
        (reSearch p t).map fun m => String.mk (capGet m 1)) = some amt →
      ∀ c ∈ amt.data, dcdP c := by
    intro pats
    induction pats with
    | nil => intro _ hfs; simp [List.findSome?] at hfs
    | cons p rest ih =>
      intro hall hfs
      rw [List.findSome?_cons] at hfs
      cases hr : (reSearch p t).map fun m => String.mk (capGet m 1) with
      | some s =>
        simp only [hr] at hfs
        obtain ⟨m, hm, hms⟩ := Option.map_eq_some'.mp hr
        have hamt : amt = String.mk (capGet m 1) := by
          rw [← Option.some.inj hfs]
          exact hms.symm
        intro c hc
        rw [hamt] at hc
        exact reSearch_amt_group1 p (hall p (List.mem_cons_self p rest)) t m hm c hc
      | none =>
        simp only [hr] at hfs
        exact ih (fun q hq => hall q (List.mem_cons_of_mem p hq)) hfs
  exact main amount_patterns groupsWithin_amount_patterns h

theorem total_amount_shape (t : String) :
    _extract_total_amount t = "₦15,000" ∨ isMoney (_extract_total_amount t) = true := by
  unfold _extract_total_amount
  cases h : firstAmountMatch t with
  | none => left; rfl
  | some amt =>
    right
    have hchars := firstAmountMatch_chars t amt h
    apply format_currency_isMoney
    intro c hc
    have hc' := List.mem_filter.mp hc
    rcases hchars c hc'.1 with hd | hcm | hdot
    · exact Or.inl hd
    · exfalso
      have := hc'.2
      rw [hcm] at this
      simp at this
    · exact Or.inr hdot

set_option maxRecDepth 1000000 in
/-- C6 counterexample: when no amount pattern matches (input `"hello"`),
`extract_claim_data` returns the fixed default `"₦15,000"`, which has a
thousands separator but no decimal part — refuting the claim that the
total is always ₦-prefixed with exactly two decimals. -/
theorem claimC6_counterexample :
    ((extract_claim_data "hello").map fun r => r.total_amount) = .ok "₦15,000" ∧
    isMoney "₦15,000" = false :=
  ⟨by rfl, by decide⟩

/-- C6 amended: the `total_amount` of every returned claim record is
either the fixed default `"₦15,000"` (no decimals; returned when no amount
pattern matches) or a currency string made of the fixed symbol ₦, a
comma-grouped digit integer part, and exactly two decimal digits. -/
theorem claimC6_amended_total_shape (s : String) (r : ClaimRecord)
    (h : extract_claim_data s = .ok r) :
    r.total_amount = "₦15,000" ∨ isMoney r.total_amount = true := by
  unfold extract_claim_data at h
  split at h
  · cases h
  · rw [← Except.ok.inj h]
    exact total_amount_shape _

/-- The record extracted from the witness input `"x"`. -/
def c6WitnessRecord : ClaimRecord :=
  { patient := { name := some "Jane Doe", age := some 34 },
    diagnoses := ["Malaria"],
    medications := [{ name := "Paracetamol", dosage := "500mg",
                      quantity := "10 tablets" }],
    procedures := ["Malaria Test"],
    admission := { was_admitted := false, admission_date := none,
                   discharge_date := none },
    total_amount := "₦15,000" }

set_option maxRecDepth 1000000 in
/-- Witness for the amended C6 at the concrete input `"x"`. -/
theorem claimC6_amended_total_shape_witness :
    extract_claim_data "x" = .ok c6WitnessRecord ∧
    (c6WitnessRecord.total_amount = "₦15,000" ∨
      isMoney c6WitnessRecord.total_amount = true) :=
  ⟨by rfl, claimC6_amended_total_shape "x" c6WitnessRecord (by rfl)⟩
